import Mathlib

/-!
# Verification of the truenas_pyos ACL codecs, filesystem iterator and file handles

Shallow embedding of the C sources (`nfs4acl.c`, the POSIX ACL codec,
`acl.c`/`do_fgetacl`, `fhandle.c`, `fsiter.c`) as executable Lean functions,
together with theorems checking the natural-language specification against them.

Machine integers are modelled as `Nat`/`Int` with explicit reductions modulo
`2^32`/`2^16` where the C code performs fixed-width casts.  XDR blobs and
xattr payloads are modelled as `List Nat` of byte values.
-/

/-! ## Byte-level helpers (endian.h: htobe32/be32toh, htole32/le32toh, htole16) -/

/-- Write a value as 4 big-endian bytes, reducing modulo 2^32 first
(mirrors the `uint32_t` cast followed by `htobe32`). -/
def be32 (v : Nat) : List Nat :=
  let w := v % 2 ^ 32
  [w / 2 ^ 24 % 256, w / 2 ^ 16 % 256, w / 2 ^ 8 % 256, w % 256]

/-- Read a big-endian 32-bit word from the first 4 bytes of a list
(missing bytes read as 0; all callers guard lengths as the C code does). -/
def rdbe32 (d : List Nat) : Nat :=
  ((d.getD 0 0 * 256 + d.getD 1 0) * 256 + d.getD 2 0) * 256 + d.getD 3 0

/-- Write a value as 2 little-endian bytes, reducing modulo 2^16 first
(mirrors the `uint16_t` cast followed by `htole16`). -/
def le16 (v : Nat) : List Nat :=
  let w := v % 2 ^ 16
  [w % 256, w / 256]

/-- Write a value as 4 little-endian bytes, reducing modulo 2^32 first. -/
def le32 (v : Nat) : List Nat :=
  let w := v % 2 ^ 32
  [w % 256, w / 256 % 256, w / 2 ^ 16 % 256, w / 2 ^ 24 % 256]

/-- Read a little-endian 16-bit word from the first 2 bytes of a list. -/
def rdle16 (d : List Nat) : Nat :=
  d.getD 0 0 + d.getD 1 0 * 256

/-- Read a little-endian 32-bit word from the first 4 bytes of a list. -/
def rdle32 (d : List Nat) : Nat :=
  d.getD 0 0 + d.getD 1 0 * 256 + d.getD 2 0 * 2 ^ 16 + d.getD 3 0 * 2 ^ 24

/-- C cast of a (possibly negative) `long` value to `uint32_t`. -/
def u32ofInt (i : Int) : Nat :=
  (i % (2 ^ 32 : Int)).toNat

/-! ## NFS4 ACL codec (`src/nfs4acl.c`)

Constants from the top of `nfs4acl.c`. -/

def NFS4_ACE_ACCESS_ALLOWED_ACE_TYPE : Nat := 0
def NFS4_ACE_ACCESS_DENIED_ACE_TYPE : Nat := 1
def NFS4_ACE_FILE_INHERIT_ACE : Nat := 0x1
def NFS4_ACE_DIRECTORY_INHERIT_ACE : Nat := 0x2
def NFS4_ACE_NO_PROPAGATE_INHERIT_ACE : Nat := 0x4
def NFS4_ACE_INHERIT_ONLY_ACE : Nat := 0x8
def NFS4_ACE_INHERITED_ACE : Nat := 0x80
/-- `NFS4_ACE_INHERIT_MASK`: all four ACE-level inheritance bits. -/
def NFS4_ACE_INHERIT_MASK : Nat := 0xF
def NFS4_ACL_IS_DIR : Nat := 0x20000
def NFS4_ACL_WHO_NAMED : Nat := 0

/-- `NFS4Ace_t`: the five fields of a Python `NFS4Ace` object.  Enum members
are modelled by their integer values; `who_id` is a Python int (uid/gid or
-1), hence `Int`. -/
structure NFS4Ace where
  ace_type : Nat
  ace_flags : Nat
  access_mask : Nat
  who_type : Nat
  who_id : Int
deriving DecidableEq, Repr

/-- The comparison key computed by `NFS4Ace_richcompare`:
`is_inherited * 2 + is_allow`, giving four buckets
(0 explicit-deny, 1 explicit-allow, 2 inherited-deny, 3 inherited-allow). -/
def NFS4Ace_sort_key (a : NFS4Ace) : Nat :=
  (if a.ace_flags &&& NFS4_ACE_INHERITED_ACE ≠ 0 then 1 else 0) * 2 +
  (if a.ace_type = NFS4_ACE_ACCESS_ALLOWED_ACE_TYPE then 1 else 0)

/-- Stable insertion of one ACE into an already-sorted list, placing it
before the first element whose key is not smaller. -/
def nfs4_insert (x : NFS4Ace) : List NFS4Ace → List NFS4Ace
  | [] => [x]
  | y :: ys =>
    if NFS4Ace_sort_key x ≤ NFS4Ace_sort_key y then x :: y :: ys
    else y :: nfs4_insert x ys

/-- The sort performed by `PyList_Sort` in `nfs4acl_alloc_ace_buf`: a stable
sort using the strict order of `NFS4Ace_richcompare` (i.e. comparison of
`NFS4Ace_sort_key`).  A stable sort is unique, so insertion sort is a
faithful model of CPython's timsort here. -/
def nfs4_sort : List NFS4Ace → List NFS4Ace
  | [] => []
  | x :: xs => nfs4_insert x (nfs4_sort xs)

/-- `nfs4ace_encode`: one 20-byte XDR ACE slot.  `iflag`/`who` are derived
from `who_type`/`who_id` exactly as in the C code. -/
def nfs4ace_encode (a : NFS4Ace) : List Nat :=
  let iflag : Nat := if a.who_type = NFS4_ACL_WHO_NAMED then 0 else 1
  let who : Nat := if a.who_type = NFS4_ACL_WHO_NAMED then u32ofInt a.who_id else a.who_type
  be32 a.ace_type ++ be32 a.ace_flags ++ be32 iflag ++ be32 a.access_mask ++ be32 who

/-- `NFS4ACL_from_aces`: sort the ACE list into canonical order
(`PyList_Sort` with `NFS4Ace_richcompare`), then pack the two-word header
followed by one 20-byte slot per ACE, all big-endian. -/
def NFS4ACL_from_aces (aces : List NFS4Ace) (acl_flags : Nat) : List Nat :=
  be32 acl_flags ++ be32 aces.length ++ (nfs4_sort aces).flatMap nfs4ace_encode

/-- `nfs4ace_decode`: decode one 20-byte XDR ACE slot into an `NFS4Ace`;
`who_type` is `NAMED` when `iflag = 0`, otherwise the raw `who` word, and
`who_id` is the raw `who` word for `NAMED` entries, `-1` for specials. -/
def nfs4ace_decode (d : List Nat) : NFS4Ace :=
  let iflag := rdbe32 (d.drop 8)
  let who := rdbe32 (d.drop 16)
  { ace_type := rdbe32 d
    ace_flags := rdbe32 (d.drop 4)
    access_mask := rdbe32 (d.drop 12)
    who_type := if iflag = 0 then NFS4_ACL_WHO_NAMED else who
    who_id := if iflag = 0 then (who : Int) else -1 }

/-- Decode `n` consecutive 20-byte ACE slots. -/
def nfs4_read_aces (d : List Nat) : Nat → List NFS4Ace
  | 0 => []
  | n + 1 => nfs4ace_decode d :: nfs4_read_aces (d.drop 20) n

/-- `NFS4ACL_get_aces` (the `aces` property): check the header and the
`naces`-implied size against the blob length, then decode every ACE. -/
def NFS4ACL_get_aces (d : List Nat) : Except String (List NFS4Ace) :=
  if d.length < 8 then .error "NFS4ACL data too short"
  else
    let naces := rdbe32 (d.drop 4)
    if 8 + naces * 20 > d.length then .error "NFS4ACL data truncated"
    else .ok (nfs4_read_aces (d.drop 8) naces)

/-! ### Lemmas about the canonical sort (claim C1) -/

theorem NFS4Ace_sort_key_le_three (a : NFS4Ace) : NFS4Ace_sort_key a ≤ 3 := by
  unfold NFS4Ace_sort_key
  split <;> split <;> simp

theorem nfs4_insert_append_lt (a : NFS4Ace) (xs l : List NFS4Ace)
    (h : ∀ x ∈ xs, NFS4Ace_sort_key x < NFS4Ace_sort_key a) :
    nfs4_insert a (xs ++ l) = xs ++ nfs4_insert a l := by
  induction xs with
  | nil => rfl
  | cons x xs ih =>
    have hx : ¬ NFS4Ace_sort_key a ≤ NFS4Ace_sort_key x := by
      have := h x (by simp)
      omega
    have ih2 := ih (fun y hy => h y (by simp [hy]))
    simp only [List.cons_append, nfs4_insert, if_neg hx, List.append_eq, ih2]

theorem nfs4_insert_le_all (a : NFS4Ace) (l : List NFS4Ace)
    (h : ∀ x ∈ l, NFS4Ace_sort_key a ≤ NFS4Ace_sort_key x) :
    nfs4_insert a l = a :: l := by
  cases l with
  | nil => rfl
  | cons y ys =>
    have hy : NFS4Ace_sort_key a ≤ NFS4Ace_sort_key y := h y (by simp)
    simp only [nfs4_insert, if_pos hy]

/-- Bucket view of the stable sort: the sorted list is exactly the
concatenation of the key-0, key-1, key-2, key-3 sublists in original order. -/
theorem nfs4_sort_eq_buckets (aces : List NFS4Ace) :
    nfs4_sort aces =
      aces.filter (fun a => NFS4Ace_sort_key a == 0) ++
      aces.filter (fun a => NFS4Ace_sort_key a == 1) ++
      aces.filter (fun a => NFS4Ace_sort_key a == 2) ++
      aces.filter (fun a => NFS4Ace_sort_key a == 3) := by
  induction aces with
  | nil => rfl
  | cons a l ih =>
    have hmem : ∀ (i : Nat) (x : NFS4Ace),
        x ∈ l.filter (fun a => NFS4Ace_sort_key a == i) → NFS4Ace_sort_key x = i := by
      intro i x hx
      have := List.of_mem_filter hx
      simpa using this
    have hk : NFS4Ace_sort_key a ≤ 3 := NFS4Ace_sort_key_le_three a
    simp only [nfs4_sort, ih]
    interval_cases h : NFS4Ace_sort_key a
    · -- key 0: inserted at the very front, lands in bucket 0
      rw [nfs4_insert_le_all _ _ (by intro x hx; omega)]
      simp [List.filter_cons, h]
    · -- key 1: passes bucket 0, heads bucket 1
      have e1 : ∀ (l0 l1 l2 l3 : List NFS4Ace),
          l0 ++ l1 ++ l2 ++ l3 = l0 ++ (l1 ++ l2 ++ l3) := by
        intro l0 l1 l2 l3; simp
      rw [e1, nfs4_insert_append_lt _ _ _ (by
            intro x hx
            have := hmem 0 x hx
            omega),
          nfs4_insert_le_all _ _ (by
            intro x hx
            simp only [List.mem_append] at hx
            rcases hx with (hx | hx) | hx
            · have := hmem 1 x hx; omega
            · have := hmem 2 x hx; omega
            · have := hmem 3 x hx; omega)]
      simp [List.filter_cons, h]
    · -- key 2: passes buckets 0 and 1, heads bucket 2
      have e1 : ∀ (l0 l1 l2 l3 : List NFS4Ace),
          l0 ++ l1 ++ l2 ++ l3 = (l0 ++ l1) ++ (l2 ++ l3) := by
        intro l0 l1 l2 l3; simp
      rw [e1, nfs4_insert_append_lt _ _ _ (by
            intro x hx
            simp only [List.mem_append] at hx
            rcases hx with hx | hx
            · have := hmem 0 x hx; omega
            · have := hmem 1 x hx; omega),
          nfs4_insert_le_all _ _ (by
            intro x hx
            simp only [List.mem_append] at hx
            rcases hx with hx | hx
            · have := hmem 2 x hx; omega
            · have := hmem 3 x hx; omega)]
      simp [List.filter_cons, h]
    · -- key 3: passes buckets 0-2, heads bucket 3
      have e1 : ∀ (l0 l1 l2 l3 : List NFS4Ace),
          l0 ++ l1 ++ l2 ++ l3 = (l0 ++ l1 ++ l2) ++ l3 := by
        intro l0 l1 l2 l3; simp
      rw [e1, nfs4_insert_append_lt _ _ _ (by
            intro x hx
            simp only [List.mem_append] at hx
            rcases hx with (hx | hx) | hx
            · have := hmem 0 x hx; omega
            · have := hmem 1 x hx; omega
            · have := hmem 2 x hx; omega),
          nfs4_insert_le_all _ _ (by
            intro x hx
            have := hmem 3 x hx
            omega)]
      simp [List.filter_cons, h]

/-! ### Claim C1 -/

/-- Concrete input of the spec's scenario *NFS4 canonical order*:
`[(ALLOW, not inherited), (DENY, inherited), (DENY, not inherited),
(ALLOW, inherited)]`, all granted `READ_DATA` to `EVERYONE@`. -/
def c1_input : List NFS4Ace :=
  [⟨0, 0, 1, 3, -1⟩, ⟨1, 0x80, 1, 3, -1⟩, ⟨1, 0, 1, 3, -1⟩, ⟨0, 0x80, 1, 3, -1⟩]

/-- Expected output order: explicit-deny, explicit-allow, inherited-deny,
inherited-allow. -/
def c1_expected : List NFS4Ace :=
  [⟨1, 0, 1, 3, -1⟩, ⟨0, 0, 1, 3, -1⟩, ⟨1, 0x80, 1, 3, -1⟩, ⟨0, 0x80, 1, 3, -1⟩]

/-- C1: `NFS4ACL.from_aces` sorts the supplied ACE list stably by the key
`2*is_inherited + is_allow`, producing the buckets explicit-deny,
explicit-allow, inherited-deny, inherited-allow in ascending order (bucket
view = the unique stable sort by that key); and on the concrete input
`[(ALLOW, no), (DENY, yes), (DENY, no), (ALLOW, yes)]` the constructed
ACL's ACE list decodes to `[(DENY, no), (ALLOW, no), (DENY, yes),
(ALLOW, yes)]`. -/
theorem NFS4ACL_from_aces_canonical_order :
    (∀ aces : List NFS4Ace,
      nfs4_sort aces =
        aces.filter (fun a => NFS4Ace_sort_key a == 0) ++
        aces.filter (fun a => NFS4Ace_sort_key a == 1) ++
        aces.filter (fun a => NFS4Ace_sort_key a == 2) ++
        aces.filter (fun a => NFS4Ace_sort_key a == 3)) ∧
    NFS4ACL_get_aces (NFS4ACL_from_aces c1_input 0) = .ok c1_expected := by
  exact ⟨nfs4_sort_eq_buckets, rfl⟩

/-! ### Raw XDR ACE layer (shared by `generate_inherited_acl` and `nfs4acl_valid`)

`generate_inherited_acl` and `nfs4acl_valid` work on the raw blob, reading
the five `u32` words of each ACE slot directly. -/

/-- One raw 20-byte XDR ACE slot, as the five `uint32_t` words the C code
reads with `be32toh`. -/
structure XdrAce where
  ace_type : Nat
  ace_flags : Nat
  iflag : Nat
  access_mask : Nat
  who : Nat
deriving DecidableEq, Repr

/-- All five words fit in 32 bits (true of anything read back from a blob). -/
def XdrAce.bounded (a : XdrAce) : Prop :=
  a.ace_type < 2 ^ 32 ∧ a.ace_flags < 2 ^ 32 ∧ a.iflag < 2 ^ 32 ∧
  a.access_mask < 2 ^ 32 ∧ a.who < 2 ^ 32

instance (a : XdrAce) : Decidable a.bounded := by
  unfold XdrAce.bounded
  infer_instance

/-- `nfs4ace_write_raw`: write one 20-byte XDR ACE slot. -/
def nfs4ace_write_raw (a : XdrAce) : List Nat :=
  be32 a.ace_type ++ be32 a.ace_flags ++ be32 a.iflag ++ be32 a.access_mask ++ be32 a.who

/-- Read one 20-byte XDR ACE slot. -/
def xdrace_read (d : List Nat) : XdrAce :=
  ⟨rdbe32 d, rdbe32 (d.drop 4), rdbe32 (d.drop 8), rdbe32 (d.drop 12), rdbe32 (d.drop 16)⟩

/-- Read `n` consecutive raw ACE slots. -/
def nfs4_read_raw_aces (d : List Nat) : Nat → List XdrAce
  | 0 => []
  | n + 1 => xdrace_read d :: nfs4_read_raw_aces (d.drop 20) n

/-- A well-formed XDR blob: header (`acl_flags`, `n_aces`) then the ACE slots. -/
def nfs4_blob (acl_flags : Nat) (aces : List XdrAce) : List Nat :=
  be32 acl_flags ++ be32 aces.length ++ aces.flatMap nfs4ace_write_raw

/-- `ace_is_inheritable`: directories match `FILE_INHERIT` or
`DIRECTORY_INHERIT`; files match only `FILE_INHERIT`. -/
def ace_is_inheritable (ace_flags : Nat) (is_dir : Bool) : Bool :=
  if is_dir then
    ace_flags &&& (NFS4_ACE_FILE_INHERIT_ACE ||| NFS4_ACE_DIRECTORY_INHERIT_ACE) != 0
  else
    ace_flags &&& NFS4_ACE_FILE_INHERIT_ACE != 0

/-- The `new_flags` computation of `NFS4ACL_generate_inherited_acl`:
`(ace_flags & ~INHERIT_ONLY) | INHERITED` for a directory child without
`NO_PROPAGATE_INHERIT`, else `(ace_flags & ~INHERIT_MASK) | INHERITED`
(`~` taken over 32 bits: `0xFFFFFFF7` resp. `0xFFFFFFF0`). -/
def nfs4_inherit_flags (ace_flags : Nat) (is_dir : Bool) : Nat :=
  if is_dir && (ace_flags &&& NFS4_ACE_NO_PROPAGATE_INHERIT_ACE == 0) then
    (ace_flags &&& 0xFFFFFFF7) ||| NFS4_ACE_INHERITED_ACE
  else
    (ace_flags &&& 0xFFFFFFF0) ||| NFS4_ACE_INHERITED_ACE

/-- `NFS4ACL_generate_inherited_acl(is_dir)`: reject an empty source blob,
count the inheritable ACEs (reading at most as many slots as both the
`n_aces` word and the blob length allow), reject when none is inheritable,
else emit a fresh blob whose header flags are `ACL_IS_DIR` (directory
child) or `0`, containing the inheritable ACEs with rewritten flags. -/
def NFS4ACL_generate_inherited_acl (d : List Nat) (is_dir : Bool) : Except String (List Nat) :=
  if d.length < 8 then .error "cannot generate inherited ACL: source ACL is empty"
  else
    let naces_in := rdbe32 (d.drop 4)
    let eff := min naces_in ((d.length - 8) / 20)
    let aces := nfs4_read_raw_aces (d.drop 8) eff
    let kept := aces.filter (fun a => ace_is_inheritable a.ace_flags is_dir)
    if kept.length = 0 then
      .error "parent ACL has no inheritable ACEs for this object type"
    else
      .ok (be32 (if is_dir then NFS4_ACL_IS_DIR else 0) ++ be32 kept.length ++
        kept.flatMap (fun a => nfs4ace_write_raw { a with ace_flags := nfs4_inherit_flags a.ace_flags is_dir }))

/-! ### Blob read-back lemmas -/

theorem be32_length (v : Nat) : (be32 v).length = 4 := rfl

theorem rdbe32_be32_append (v : Nat) (rest : List Nat) (hv : v < 2 ^ 32) :
    rdbe32 (be32 v ++ rest) = v := by
  simp only [be32, rdbe32]
  simp only [List.cons_append, List.getD_cons_zero, List.getD_cons_succ]
  omega

theorem nfs4ace_write_raw_length (a : XdrAce) : (nfs4ace_write_raw a).length = 20 := rfl

theorem drop_four_be32_append (v : Nat) (rest : List Nat) :
    (be32 v ++ rest).drop 4 = rest := rfl

theorem xdrace_read_write (a : XdrAce) (rest : List Nat) (h : a.bounded) :
    xdrace_read (nfs4ace_write_raw a ++ rest) = a := by
  obtain ⟨h1, h2, h3, h4, h5⟩ := h
  simp only [xdrace_read, nfs4ace_write_raw, List.append_assoc]
  rw [show ∀ l : List Nat, (be32 a.ace_type ++ l).drop 4 = l from fun _ => rfl]
  rw [show ∀ l : List Nat, ((be32 a.ace_type ++ (be32 a.ace_flags ++ l)).drop 8) = l from fun _ => rfl]
  rw [show ∀ l : List Nat,
        ((be32 a.ace_type ++ (be32 a.ace_flags ++ (be32 a.iflag ++ l))).drop 12) = l from fun _ => rfl]
  rw [show ∀ l : List Nat,
        ((be32 a.ace_type ++ (be32 a.ace_flags ++ (be32 a.iflag ++ (be32 a.access_mask ++ l)))).drop 16) = l
        from fun _ => rfl]
  rw [rdbe32_be32_append _ _ h1, rdbe32_be32_append _ _ h2, rdbe32_be32_append _ _ h3,
      rdbe32_be32_append _ _ h4, rdbe32_be32_append _ _ h5]

theorem nfs4_read_raw_aces_flatMap (aces : List XdrAce) (h : ∀ a ∈ aces, a.bounded) :
    nfs4_read_raw_aces (aces.flatMap nfs4ace_write_raw) aces.length = aces := by
  induction aces with
  | nil => rfl
  | cons a l ih =>
    simp only [List.flatMap_cons, List.length_cons, nfs4_read_raw_aces]
    rw [xdrace_read_write a _ (h a (by simp))]
    rw [show (nfs4ace_write_raw a ++ l.flatMap nfs4ace_write_raw).drop 20 =
          l.flatMap nfs4ace_write_raw by
        rw [List.drop_append_of_le_length (by rw [nfs4ace_write_raw_length])]
        simp [nfs4ace_write_raw_length]]
    rw [ih (fun x hx => h x (by simp [hx]))]

theorem nfs4_blob_length (acl_flags : Nat) (aces : List XdrAce) :
    (nfs4_blob acl_flags aces).length = 8 + 20 * aces.length := by
  simp only [nfs4_blob, List.length_append, be32_length]
  have : (aces.flatMap nfs4ace_write_raw).length = 20 * aces.length := by
    induction aces with
    | nil => rfl
    | cons a l ih => simp [List.flatMap_cons, nfs4ace_write_raw_length, ih]; ring
  omega

/-! ### Bit-level semantics of the inherited-flags rewrite -/

/-- Bits of `(f & ~INHERIT_MASK) | INHERITED` over 32 bits: the four
inheritance bits (0-3) are cleared, `INHERITED` (bit 7) is set, every
other bit of `f` is preserved. -/
theorem nfs4_strip_all_testBit (f i : Nat) (hf : f < 2 ^ 32) :
    ((f &&& 0xFFFFFFF0) ||| 0x80).testBit i =
      if i < 4 then false else if i = 7 then true else f.testBit i := by
  rcases Nat.lt_or_ge i 32 with hi | hi
  · have hmask : (0xFFFFFFF0 : Nat).testBit i = decide (4 ≤ i) := by
      interval_cases i <;> decide
    have hbit : (0x80 : Nat).testBit i = decide (i = 7) := by
      interval_cases i <;> decide
    rw [Nat.testBit_lor, Nat.testBit_land, hmask, hbit]
    by_cases h4 : i < 4
    · simp [h4, show ¬(4 ≤ i) from by omega, show ¬(i = 7) from by omega]
    · by_cases h7 : i = 7
      · simp [h7]
      · simp [h4, show 4 ≤ i from by omega, h7]
  · have hpow : (2 : Nat) ^ 32 ≤ 2 ^ i := Nat.pow_le_pow_right (by norm_num) hi
    have hfb : f.testBit i = false := Nat.testBit_lt_two_pow (lt_of_lt_of_le hf hpow)
    have hm : (0xFFFFFFF0 : Nat).testBit i = false :=
      Nat.testBit_lt_two_pow (lt_of_lt_of_le (by norm_num) hpow)
    have hb : (0x80 : Nat).testBit i = false :=
      Nat.testBit_lt_two_pow (lt_of_lt_of_le (by norm_num) hpow)
    rw [Nat.testBit_lor, Nat.testBit_land, hfb, hm, hb]
    simp [show ¬(i < 4) from by omega, show ¬(i = 7) from by omega]

/-- Bits of `(f & ~INHERIT_ONLY) | INHERITED` over 32 bits: only
`INHERIT_ONLY` (bit 3) is cleared and `INHERITED` (bit 7) set; in
particular `FILE_INHERIT` (bit 0) and `DIRECTORY_INHERIT` (bit 1) are
preserved. -/
theorem nfs4_keep_inherit_testBit (f i : Nat) (hf : f < 2 ^ 32) :
    ((f &&& 0xFFFFFFF7) ||| 0x80).testBit i =
      if i = 3 then false else if i = 7 then true else f.testBit i := by
  rcases Nat.lt_or_ge i 32 with hi | hi
  · have hmask : (0xFFFFFFF7 : Nat).testBit i = decide (i ≠ 3) := by
      interval_cases i <;> decide
    have hbit : (0x80 : Nat).testBit i = decide (i = 7) := by
      interval_cases i <;> decide
    rw [Nat.testBit_lor, Nat.testBit_land, hmask, hbit]
    by_cases h3 : i = 3
    · simp [h3]
    · by_cases h7 : i = 7
      · simp [h7]
      · simp [h3, h7]
  · have hpow : (2 : Nat) ^ 32 ≤ 2 ^ i := Nat.pow_le_pow_right (by norm_num) hi
    have hfb : f.testBit i = false := Nat.testBit_lt_two_pow (lt_of_lt_of_le hf hpow)
    have hm : (0xFFFFFFF7 : Nat).testBit i = false :=
      Nat.testBit_lt_two_pow (lt_of_lt_of_le (by norm_num) hpow)
    have hb : (0x80 : Nat).testBit i = false :=
      Nat.testBit_lt_two_pow (lt_of_lt_of_le (by norm_num) hpow)
    rw [Nat.testBit_lor, Nat.testBit_land, hfb, hm, hb]
    simp [show ¬(i = 3) from by omega, show ¬(i = 7) from by omega]

/-- Evaluation of `generate_inherited_acl` on a well-formed blob: keep the
inheritable ACEs (in order), rewrite their flags, and emit a fresh blob
whose header flags are `ACL_IS_DIR` for a directory child and `0`
otherwise; error when no ACE is inheritable. -/
theorem NFS4ACL_generate_inherited_acl_blob (acl_flags : Nat) (aces : List XdrAce)
    (is_dir : Bool) (hb : ∀ a ∈ aces, a.bounded) (hn : aces.length < 2 ^ 32) :
    NFS4ACL_generate_inherited_acl (nfs4_blob acl_flags aces) is_dir =
      if (aces.filter (fun a => ace_is_inheritable a.ace_flags is_dir)).length = 0 then
        .error "parent ACL has no inheritable ACEs for this object type"
      else
        .ok (nfs4_blob (if is_dir then NFS4_ACL_IS_DIR else 0)
          ((aces.filter (fun a => ace_is_inheritable a.ace_flags is_dir)).map
            (fun a => { a with ace_flags := nfs4_inherit_flags a.ace_flags is_dir }))) := by
  have h1 : ¬ (nfs4_blob acl_flags aces).length < 8 := by
    rw [nfs4_blob_length]; omega
  have h2 : rdbe32 ((nfs4_blob acl_flags aces).drop 4) = aces.length := by
    rw [show (nfs4_blob acl_flags aces).drop 4 =
          be32 aces.length ++ aces.flatMap nfs4ace_write_raw from rfl,
        rdbe32_be32_append _ _ hn]
  have h3 : (nfs4_blob acl_flags aces).drop 8 = aces.flatMap nfs4ace_write_raw := rfl
  simp only [NFS4ACL_generate_inherited_acl, if_neg h1, h2, h3, nfs4_blob_length]
  have h4 : min aces.length ((8 + 20 * aces.length - 8) / 20) = aces.length := by
    omega
  rw [h4, nfs4_read_raw_aces_flatMap aces hb]
  by_cases hk : (aces.filter (fun a => ace_is_inheritable a.ace_flags is_dir)).length = 0
  · simp [hk]
  · simp only [if_neg hk]
    rw [show nfs4_blob (if is_dir then NFS4_ACL_IS_DIR else 0)
          ((aces.filter (fun a => ace_is_inheritable a.ace_flags is_dir)).map
            (fun a => { a with ace_flags := nfs4_inherit_flags a.ace_flags is_dir })) =
        be32 (if is_dir then NFS4_ACL_IS_DIR else 0) ++
          be32 (aces.filter (fun a => ace_is_inheritable a.ace_flags is_dir)).length ++
          (aces.filter (fun a => ace_is_inheritable a.ace_flags is_dir)).flatMap
            (fun a => nfs4ace_write_raw { a with ace_flags := nfs4_inherit_flags a.ace_flags is_dir }) by
      simp [nfs4_blob, List.flatMap_map, Function.comp]]
    rw [if_neg (show ¬ 8 + 20 * aces.length < 8 by omega)]

/-! ### Claim C2 -/

/-- C2: `generate_inherited_acl(is_dir)` keeps, for a file child, exactly
the ACEs with `FILE_INHERIT` (see `ace_is_inheritable`), for a directory
child exactly those with `FILE_INHERIT` or `DIRECTORY_INHERIT`; the
rewritten flags strip all four inherit bits and set `INHERITED` for a file
child or a directory child with `NO_PROPAGATE_INHERIT`, and otherwise
clear only `INHERIT_ONLY` (keeping `FILE_INHERIT`/`DIRECTORY_INHERIT`)
and set `INHERITED`; the output header flags are `ACL_IS_DIR` exactly for
a directory child; and the call fails with a domain error, producing no
ACL, exactly when zero ACEs would be produced. -/
theorem NFS4ACL_generate_inherited_acl_spec :
    (∀ (acl_flags : Nat) (aces : List XdrAce) (is_dir : Bool),
      (∀ a ∈ aces, a.bounded) → aces.length < 2 ^ 32 →
      NFS4ACL_generate_inherited_acl (nfs4_blob acl_flags aces) is_dir =
        if (aces.filter (fun a => ace_is_inheritable a.ace_flags is_dir)).length = 0 then
          .error "parent ACL has no inheritable ACEs for this object type"
        else
          .ok (nfs4_blob (if is_dir then NFS4_ACL_IS_DIR else 0)
            ((aces.filter (fun a => ace_is_inheritable a.ace_flags is_dir)).map
              (fun a => { a with ace_flags := nfs4_inherit_flags a.ace_flags is_dir })))) ∧
    (∀ f i, f < 2 ^ 32 →
      (nfs4_inherit_flags f false).testBit i =
        if i < 4 then false else if i = 7 then true else f.testBit i) ∧
    (∀ f i, f < 2 ^ 32 → f &&& NFS4_ACE_NO_PROPAGATE_INHERIT_ACE ≠ 0 →
      (nfs4_inherit_flags f true).testBit i =
        if i < 4 then false else if i = 7 then true else f.testBit i) ∧
    (∀ f i, f < 2 ^ 32 → f &&& NFS4_ACE_NO_PROPAGATE_INHERIT_ACE = 0 →
      (nfs4_inherit_flags f true).testBit i =
        if i = 3 then false else if i = 7 then true else f.testBit i) := by
  refine ⟨NFS4ACL_generate_inherited_acl_blob, ?_, ?_, ?_⟩
  · intro f i hf
    rw [show nfs4_inherit_flags f false = (f &&& 0xFFFFFFF0) ||| NFS4_ACE_INHERITED_ACE from rfl]
    exact nfs4_strip_all_testBit f i hf
  · intro f i hf hnp
    have hc : (f &&& NFS4_ACE_NO_PROPAGATE_INHERIT_ACE == 0) = false := by
      simpa using hnp
    rw [show nfs4_inherit_flags f true =
          if (true && (f &&& NFS4_ACE_NO_PROPAGATE_INHERIT_ACE == 0)) then
            (f &&& 0xFFFFFFF7) ||| NFS4_ACE_INHERITED_ACE
          else (f &&& 0xFFFFFFF0) ||| NFS4_ACE_INHERITED_ACE from rfl,
        hc]
    simpa using nfs4_strip_all_testBit f i hf
  · intro f i hf hnp
    have hc : (f &&& NFS4_ACE_NO_PROPAGATE_INHERIT_ACE == 0) = true := by
      simpa using hnp
    rw [show nfs4_inherit_flags f true =
          if (true && (f &&& NFS4_ACE_NO_PROPAGATE_INHERIT_ACE == 0)) then
            (f &&& 0xFFFFFFF7) ||| NFS4_ACE_INHERITED_ACE
          else (f &&& 0xFFFFFFF0) ||| NFS4_ACE_INHERITED_ACE from rfl,
        hc]
    simpa using nfs4_keep_inherit_testBit f i hf

/-- Witness for C2 at a concrete input: a directory child inherits an
`INHERIT_ONLY` ACE with `INHERIT_ONLY` cleared and `INHERITED` set, and
the output header flags carry `ACL_IS_DIR`. -/
theorem NFS4ACL_generate_inherited_acl_spec_witness :
    NFS4ACL_generate_inherited_acl (nfs4_blob 0 [⟨0, 0xB, 1, 1, 3⟩]) true =
      .ok (nfs4_blob NFS4_ACL_IS_DIR [⟨0, 0x83, 1, 1, 3⟩]) ∧
    (nfs4_inherit_flags 0x5 false).testBit 7 = true := by
  constructor
  · have h := NFS4ACL_generate_inherited_acl_spec.1 0 [⟨0, 0xB, 1, 1, 3⟩] true
      (by decide) (by decide)
    rw [h]
    rfl
  · have h := NFS4ACL_generate_inherited_acl_spec.2.1 0x5 7 (by norm_num)
    rw [h]
    decide

/-! ### `nfs4acl_valid` (claim C7) -/

/-- `NFS4_PROPAGATE_MASK`: the inheritance-propagation flags, only valid on
directory ACLs. -/
def NFS4_PROPAGATE_MASK : Nat := 0xF

/-- Per-ACE rejection test of the `nfs4acl_valid` loop: a `DENY` entry for a
special principal (`iflag = 1`), or `INHERIT_ONLY` without `FILE_INHERIT`
or `DIRECTORY_INHERIT`. -/
def nfs4ace_reject (a : XdrAce) : Bool :=
  (a.ace_type == NFS4_ACE_ACCESS_DENIED_ACE_TYPE && a.iflag == 1) ||
  ((a.ace_flags &&& NFS4_ACE_INHERIT_ONLY_ACE != 0) &&
   (a.ace_flags &&& (NFS4_ACE_FILE_INHERIT_ACE ||| NFS4_ACE_DIRECTORY_INHERIT_ACE) == 0))

/-- The per-ACE loop of `nfs4acl_valid`: raise on the first offending ACE,
otherwise accumulate `has_propagate` and `has_inheritable`. -/
def nfs4acl_valid_loop : List XdrAce → Bool → Bool → Except String (Bool × Bool)
  | [], has_prop, has_inh => .ok (has_prop, has_inh)
  | a :: rest, has_prop, has_inh =>
    if a.ace_type == NFS4_ACE_ACCESS_DENIED_ACE_TYPE && a.iflag == 1 then
      .error "DENY entries are not permitted for special principals (OWNER@, GROUP@, EVERYONE@)"
    else if (a.ace_flags &&& NFS4_ACE_INHERIT_ONLY_ACE != 0) &&
            (a.ace_flags &&& (NFS4_ACE_FILE_INHERIT_ACE ||| NFS4_ACE_DIRECTORY_INHERIT_ACE) == 0) then
      .error "INHERIT_ONLY requires FILE_INHERIT or DIRECTORY_INHERIT to also be set"
    else
      nfs4acl_valid_loop rest
        (has_prop || (a.ace_flags &&& NFS4_PROPAGATE_MASK != 0))
        (has_inh || (a.ace_flags &&& (NFS4_ACE_FILE_INHERIT_ACE ||| NFS4_ACE_DIRECTORY_INHERIT_ACE) != 0))

/-- The target-kind checks after the loop: propagation flags require a
directory, and a directory ACL must contain an inheritable ACE. -/
def nfs4acl_valid_finish (is_dir has_prop has_inh : Bool) : Except String Unit :=
  if has_prop && !is_dir then
    .error "FILE_INHERIT/DIRECTORY_INHERIT/NO_PROPAGATE_INHERIT/INHERIT_ONLY flags are only valid on directories"
  else if is_dir && !has_inh then
    .error "directory ACL must contain at least one ACE with FILE_INHERIT or DIRECTORY_INHERIT"
  else .ok ()

/-- `nfs4acl_valid(fd, data, len)`.  The target is abstracted to
`Option Bool`: `none` models `fd == -1` (treated as a directory), `some b`
models an open fd whose `S_ISDIR` is `b`. -/
def nfs4acl_valid (target_is_dir : Option Bool) (d : List Nat) : Except String Unit :=
  if d.length < 8 then .ok ()
  else
    let naces := rdbe32 (d.drop 4)
    let eff := min naces ((d.length - 8) / 20)
    (nfs4acl_valid_loop (nfs4_read_raw_aces (d.drop 8) eff) false false).bind
      (fun s => nfs4acl_valid_finish (target_is_dir.getD true) s.1 s.2)

theorem nfs4ace_reject_iff (a : XdrAce) :
    nfs4ace_reject a = true ↔
      (a.ace_type = NFS4_ACE_ACCESS_DENIED_ACE_TYPE ∧ a.iflag = 1) ∨
      (a.ace_flags &&& NFS4_ACE_INHERIT_ONLY_ACE ≠ 0 ∧
        a.ace_flags &&& (NFS4_ACE_FILE_INHERIT_ACE ||| NFS4_ACE_DIRECTORY_INHERIT_ACE) = 0) := by
  simp [nfs4ace_reject]

theorem nfs4acl_valid_loop_ok (aces : List XdrAce) (hp hi : Bool)
    (h : ∀ a ∈ aces, nfs4ace_reject a = false) :
    nfs4acl_valid_loop aces hp hi =
      .ok (hp || aces.any (fun a => a.ace_flags &&& NFS4_PROPAGATE_MASK != 0),
           hi || aces.any (fun a =>
             a.ace_flags &&& (NFS4_ACE_FILE_INHERIT_ACE ||| NFS4_ACE_DIRECTORY_INHERIT_ACE) != 0)) := by
  induction aces generalizing hp hi with
  | nil => simp [nfs4acl_valid_loop]
  | cons a rest ih =>
    have ha := h a (by simp)
    have h1 : (a.ace_type == NFS4_ACE_ACCESS_DENIED_ACE_TYPE && a.iflag == 1) = false := by
      cases hc : (a.ace_type == NFS4_ACE_ACCESS_DENIED_ACE_TYPE && a.iflag == 1) with
      | false => rfl
      | true =>
        rw [nfs4ace_reject, hc] at ha
        simp at ha
    have h2 : ((a.ace_flags &&& NFS4_ACE_INHERIT_ONLY_ACE != 0) &&
        (a.ace_flags &&& (NFS4_ACE_FILE_INHERIT_ACE ||| NFS4_ACE_DIRECTORY_INHERIT_ACE) == 0)) = false := by
      cases hc : ((a.ace_flags &&& NFS4_ACE_INHERIT_ONLY_ACE != 0) &&
          (a.ace_flags &&& (NFS4_ACE_FILE_INHERIT_ACE ||| NFS4_ACE_DIRECTORY_INHERIT_ACE) == 0)) with
      | false => rfl
      | true =>
        rw [nfs4ace_reject, hc] at ha
        simp at ha
    have hc1 : ¬ ((a.ace_type == NFS4_ACE_ACCESS_DENIED_ACE_TYPE && a.iflag == 1) = true) := by
      simp [h1]
    have hc2 : ¬ (((a.ace_flags &&& NFS4_ACE_INHERIT_ONLY_ACE != 0) &&
        (a.ace_flags &&& (NFS4_ACE_FILE_INHERIT_ACE ||| NFS4_ACE_DIRECTORY_INHERIT_ACE) == 0)) = true) := by
      simp [h2]
    rw [nfs4acl_valid_loop, if_neg hc1, if_neg hc2,
        ih _ _ (fun x hx => h x (by simp [hx]))]
    simp [List.any_cons, Bool.or_assoc]

theorem nfs4acl_valid_loop_err (aces : List XdrAce) (hp hi : Bool)
    (h : ∃ a ∈ aces, nfs4ace_reject a = true) :
    ∃ e, nfs4acl_valid_loop aces hp hi = .error e := by
  induction aces generalizing hp hi with
  | nil => simp at h
  | cons a rest ih =>
    by_cases h1 : (a.ace_type == NFS4_ACE_ACCESS_DENIED_ACE_TYPE && a.iflag == 1) = true
    · exact ⟨_, by rw [nfs4acl_valid_loop, if_pos h1]⟩
    · by_cases h2 : ((a.ace_flags &&& NFS4_ACE_INHERIT_ONLY_ACE != 0) &&
          (a.ace_flags &&& (NFS4_ACE_FILE_INHERIT_ACE ||| NFS4_ACE_DIRECTORY_INHERIT_ACE) == 0)) = true
      · exact ⟨_, by rw [nfs4acl_valid_loop, if_neg h1, if_pos h2]⟩
      · have hrest : ∃ x ∈ rest, nfs4ace_reject x = true := by
          rcases h with ⟨x, hx, hrx⟩
          rcases List.mem_cons.mp hx with rfl | hx
          · exfalso
            revert hrx
            simp only [nfs4ace_reject, Bool.or_eq_true]
            rintro (hc | hc)
            · exact h1 hc
            · exact h2 hc
          · exact ⟨x, hx, hrx⟩
        obtain ⟨e, he⟩ := ih (hp || (a.ace_flags &&& NFS4_PROPAGATE_MASK != 0))
          (hi || (a.ace_flags &&& (NFS4_ACE_FILE_INHERIT_ACE ||| NFS4_ACE_DIRECTORY_INHERIT_ACE) != 0)) hrest
        refine ⟨e, ?_⟩
        rw [nfs4acl_valid_loop, if_neg h1, if_neg h2]
        exact he

/-! ### Claim C7 -/

/-- Error characterization of the post-loop target checks. -/
theorem nfs4acl_valid_finish_err_iff (d p i : Bool) :
    (∃ e, nfs4acl_valid_finish d p i = .error e) ↔
      ((p = true ∧ d = false) ∨ (d = true ∧ i = false)) := by
  cases d <;> cases p <;> cases i <;> simp [nfs4acl_valid_finish]

/-- C7: `nfs4acl_valid(fd_or_none, bytes)` rejects exactly when: some ACE is
a `DENY` with `iflag = 1`; or some ACE has `INHERIT_ONLY` without
`FILE_INHERIT`/`DIRECTORY_INHERIT`; or some ACE carries a propagation bit
while the target is not a directory; or the target is a directory and no
ACE has `FILE_INHERIT` or `DIRECTORY_INHERIT` — an absent fd (`none`)
being treated as a directory target. -/
theorem nfs4acl_valid_spec (target : Option Bool) (acl_flags : Nat) (aces : List XdrAce)
    (hb : ∀ a ∈ aces, a.bounded) (hn : aces.length < 2 ^ 32) :
    (∃ e, nfs4acl_valid target (nfs4_blob acl_flags aces) = .error e) ↔
      ((∃ a ∈ aces, a.ace_type = NFS4_ACE_ACCESS_DENIED_ACE_TYPE ∧ a.iflag = 1) ∨
       (∃ a ∈ aces, a.ace_flags &&& NFS4_ACE_INHERIT_ONLY_ACE ≠ 0 ∧
         a.ace_flags &&& (NFS4_ACE_FILE_INHERIT_ACE ||| NFS4_ACE_DIRECTORY_INHERIT_ACE) = 0) ∨
       ((∃ a ∈ aces, a.ace_flags &&& NFS4_PROPAGATE_MASK ≠ 0) ∧ target.getD true = false) ∨
       (target.getD true = true ∧
         ¬ ∃ a ∈ aces, a.ace_flags &&& (NFS4_ACE_FILE_INHERIT_ACE ||| NFS4_ACE_DIRECTORY_INHERIT_ACE) ≠ 0)) := by
  have h1 : ¬ (nfs4_blob acl_flags aces).length < 8 := by
    rw [nfs4_blob_length]; omega
  have h2 : rdbe32 ((nfs4_blob acl_flags aces).drop 4) = aces.length := by
    rw [show (nfs4_blob acl_flags aces).drop 4 =
          be32 aces.length ++ aces.flatMap nfs4ace_write_raw from rfl,
        rdbe32_be32_append _ _ hn]
  have h3 : (nfs4_blob acl_flags aces).drop 8 = aces.flatMap nfs4ace_write_raw := rfl
  have heval : nfs4acl_valid target (nfs4_blob acl_flags aces) =
      (nfs4acl_valid_loop aces false false).bind
        (fun s => nfs4acl_valid_finish (target.getD true) s.1 s.2) := by
    simp only [nfs4acl_valid, if_neg h1, h2, h3, nfs4_blob_length]
    rw [show min aces.length ((8 + 20 * aces.length - 8) / 20) = aces.length by omega,
        nfs4_read_raw_aces_flatMap aces hb,
        if_neg (show ¬ 8 + 20 * aces.length < 8 by omega)]
  rw [heval]
  by_cases hrej : ∃ a ∈ aces, nfs4ace_reject a = true
  · obtain ⟨e, he⟩ := nfs4acl_valid_loop_err aces false false hrej
    rw [he]
    constructor
    · intro _
      obtain ⟨a, hamem, har⟩ := hrej
      rcases (nfs4ace_reject_iff a).mp har with hc | hc
      · exact Or.inl ⟨a, hamem, hc⟩
      · exact Or.inr (Or.inl ⟨a, hamem, hc⟩)
    · intro _
      exact ⟨e, rfl⟩
  · push_neg at hrej
    have hall : ∀ a ∈ aces, nfs4ace_reject a = false := by
      intro a ha
      have := hrej a ha
      simpa using this
    have hnd : ∀ a ∈ aces,
        ¬ ((a.ace_type = NFS4_ACE_ACCESS_DENIED_ACE_TYPE ∧ a.iflag = 1) ∨
           (a.ace_flags &&& NFS4_ACE_INHERIT_ONLY_ACE ≠ 0 ∧
            a.ace_flags &&& (NFS4_ACE_FILE_INHERIT_ACE ||| NFS4_ACE_DIRECTORY_INHERIT_ACE) = 0)) := by
      intro a ha hcontra
      rw [← nfs4ace_reject_iff a] at hcontra
      rw [hall a ha] at hcontra
      exact Bool.noConfusion hcontra
    have hnc1 : ¬ ∃ a ∈ aces, a.ace_type = NFS4_ACE_ACCESS_DENIED_ACE_TYPE ∧ a.iflag = 1 := by
      rintro ⟨a, ha, hc⟩
      exact hnd a ha (Or.inl hc)
    have hnc2 : ¬ ∃ a ∈ aces, a.ace_flags &&& NFS4_ACE_INHERIT_ONLY_ACE ≠ 0 ∧
        a.ace_flags &&& (NFS4_ACE_FILE_INHERIT_ACE ||| NFS4_ACE_DIRECTORY_INHERIT_ACE) = 0 := by
      rintro ⟨a, ha, hc⟩
      exact hnd a ha (Or.inr hc)
    have hP : (∃ a ∈ aces, a.ace_flags &&& NFS4_PROPAGATE_MASK ≠ 0) ↔
        aces.any (fun a => a.ace_flags &&& NFS4_PROPAGATE_MASK != 0) = true := by
      simp [List.any_eq_true]
    have hI : (∃ a ∈ aces,
          a.ace_flags &&& (NFS4_ACE_FILE_INHERIT_ACE ||| NFS4_ACE_DIRECTORY_INHERIT_ACE) ≠ 0) ↔
        aces.any (fun a =>
          a.ace_flags &&& (NFS4_ACE_FILE_INHERIT_ACE ||| NFS4_ACE_DIRECTORY_INHERIT_ACE) != 0) = true := by
      simp [List.any_eq_true]
    rw [nfs4acl_valid_loop_ok aces false false hall]
    simp only [Except.bind, Bool.false_or]
    rw [nfs4acl_valid_finish_err_iff]
    constructor
    · rintro (⟨hp', hd'⟩ | ⟨hd', hi'⟩)
      · exact Or.inr (Or.inr (Or.inl ⟨hP.mpr hp', hd'⟩))
      · refine Or.inr (Or.inr (Or.inr ⟨hd', ?_⟩))
        intro hex
        have := hI.mp hex
        rw [hi'] at this
        exact Bool.noConfusion this
    · rintro (hc | hc | ⟨hp', hd'⟩ | ⟨hd', hi'⟩)
      · exact absurd hc hnc1
      · exact absurd hc hnc2
      · exact Or.inl ⟨hP.mp hp', hd'⟩
      · refine Or.inr ⟨hd', ?_⟩
        cases hany : aces.any (fun a =>
            a.ace_flags &&& (NFS4_ACE_FILE_INHERIT_ACE ||| NFS4_ACE_DIRECTORY_INHERIT_ACE) != 0) with
        | false => rfl
        | true => exact absurd (hI.mpr hany) hi'

/-- Witness for C7: a `DENY` ACE for a special principal is rejected even on
a non-directory target. -/
theorem nfs4acl_valid_spec_witness :
    (nfs4acl_valid (some false) (nfs4_blob 0 [⟨1, 0, 1, 1, 3⟩])).isOk = false := by
  obtain ⟨e, he⟩ := (nfs4acl_valid_spec (some false) 0 [⟨1, 0, 1, 1, 3⟩]
      (by decide) (by decide)).mpr
    (Or.inl ⟨⟨1, 0, 1, 1, 3⟩, by simp, rfl, rfl⟩)
  rw [he]
  rfl

/-! ## POSIX.1e ACL codec (the POSIXACL part of the sources)

Constants from the top of the codec. -/

def POSIX_ACL_VERSION : Nat := 2
def POSIX_SPECIAL_ID : Nat := 0xFFFFFFFF
def POSIX_TAG_USER_OBJ : Nat := 0x0001
def POSIX_TAG_USER : Nat := 0x0002
def POSIX_TAG_GROUP_OBJ : Nat := 0x0004
def POSIX_TAG_GROUP : Nat := 0x0008
def POSIX_TAG_MASK : Nat := 0x0010
def POSIX_TAG_OTHER : Nat := 0x0020

/-- `is_special_tag`: tags whose wire id is always `POSIX_SPECIAL_ID`. -/
def is_special_tag (tag : Nat) : Bool :=
  tag == POSIX_TAG_USER_OBJ || tag == POSIX_TAG_GROUP_OBJ ||
  tag == POSIX_TAG_MASK || tag == POSIX_TAG_OTHER

/-- `POSIXAce_t`: tag and perms enum values, Python int id (uid/gid or -1),
and the default-ACL flag. -/
structure POSIXAce where
  tag : Nat
  perms : Nat
  id : Int
  default : Bool
deriving DecidableEq, Repr

/-- The `≤` of `POSIXAce_richcompare`: primary key tag, secondary key id. -/
def POSIXAce_le (a b : POSIXAce) : Prop :=
  a.tag < b.tag ∨ (a.tag = b.tag ∧ a.id ≤ b.id)

instance (a b : POSIXAce) : Decidable (POSIXAce_le a b) := by
  unfold POSIXAce_le
  infer_instance

/-- Stable insertion of one entry into an already-sorted list. -/
def posix_insert (x : POSIXAce) : List POSIXAce → List POSIXAce
  | [] => [x]
  | y :: ys => if POSIXAce_le x y then x :: y :: ys else y :: posix_insert x ys

/-- The sort performed by `PyList_Sort` in `POSIXACL_from_aces`: the stable
sort under the `(tag, id)` order of `POSIXAce_richcompare` (insertion sort
is that unique stable sort). -/
def posix_sort : List POSIXAce → List POSIXAce
  | [] => []
  | x :: xs => posix_insert x (posix_sort xs)

/-- Encode one 8-byte record of `encode_posix_aces`: `tag:u16 LE`,
`perm:u16 LE`, then the id as `u32 LE` — `POSIX_SPECIAL_ID` for special
tags, the (truncated) caller id otherwise. -/
def encode_posix_ace (a : POSIXAce) : List Nat :=
  let xid := if is_special_tag a.tag then POSIX_SPECIAL_ID else u32ofInt a.id
  le16 a.tag ++ le16 a.perms ++ le32 xid

/-- `encode_posix_aces`: 4-byte LE version word (= 2) followed by the
8-byte records. -/
def encode_posix_aces (aces : List POSIXAce) : List Nat :=
  le32 POSIX_ACL_VERSION ++ aces.flatMap encode_posix_ace

/-- `POSIXACL_from_aces`: split the entries on their default flag (order
preserved), sort each list, encode the access blob always and the default
blob only when non-empty. -/
def POSIXACL_from_aces (aces : List POSIXAce) : List Nat × Option (List Nat) :=
  let access_sorted := posix_sort (aces.filter (fun a => !a.default))
  let default_sorted := posix_sort (aces.filter (fun a => a.default))
  (encode_posix_aces access_sorted,
   if default_sorted.length > 0 then some (encode_posix_aces default_sorted) else none)

/-- Decode one 8-byte record (`parse_posix_aces` loop body): wire id
`POSIX_SPECIAL_ID` maps back to `id = -1`; the default flag is the one of
the xattr being parsed. -/
def parse_posix_ace (d : List Nat) (is_default : Bool) : POSIXAce :=
  let xid := rdle32 (d.drop 4)
  { tag := rdle16 d
    perms := rdle16 (d.drop 2)
    id := if xid = POSIX_SPECIAL_ID then -1 else (xid : Int)
    default := is_default }

/-- Decode `n` consecutive 8-byte records. -/
def parse_posix_records (d : List Nat) (is_default : Bool) : Nat → List POSIXAce
  | 0 => []
  | n + 1 => parse_posix_ace d is_default :: parse_posix_records (d.drop 8) is_default n

/-- `parse_posix_aces`: empty buffer decodes to no entries, a buffer
shorter than the header is an error, otherwise decode
`(len - 4) / 8` records after the version word. -/
def parse_posix_aces (d : List Nat) (is_default : Bool) : Except String (List POSIXAce) :=
  if d.length = 0 then .ok []
  else if d.length < 4 then .error "POSIXACL data too short"
  else .ok (parse_posix_records (d.drop 4) is_default ((d.length - 4) / 8))

/-- Entries that survive the wire unchanged: 16-bit tag and perms, and an
id that is either `-1` or (for named tags) a value the `u32` id field can
represent other than the special marker. -/
def POSIXAce.wire_safe (a : POSIXAce) : Prop :=
  a.tag < 2 ^ 16 ∧ a.perms < 2 ^ 16 ∧
  (if is_special_tag a.tag then a.id = -1
   else a.id = -1 ∨ (0 ≤ a.id ∧ a.id < (POSIX_SPECIAL_ID : Int)))

instance (a : POSIXAce) : Decidable a.wire_safe := by
  unfold POSIXAce.wire_safe
  infer_instance

/-! ### POSIX sort lemmas (claim C3) -/

theorem POSIXAce_le_total (a b : POSIXAce) (h : ¬ POSIXAce_le a b) : POSIXAce_le b a := by
  unfold POSIXAce_le at *
  push_neg at h
  omega

theorem POSIXAce_le_trans (a b c : POSIXAce)
    (h1 : POSIXAce_le a b) (h2 : POSIXAce_le b c) : POSIXAce_le a c := by
  unfold POSIXAce_le at *
  omega

theorem posix_insert_perm (x : POSIXAce) (l : List POSIXAce) :
    (posix_insert x l).Perm (x :: l) := by
  induction l with
  | nil => exact List.Perm.refl _
  | cons y ys ih =>
    rw [posix_insert]
    split
    · exact List.Perm.refl _
    · exact (ih.cons y).trans (List.Perm.swap x y ys)

theorem posix_sort_perm (l : List POSIXAce) : (posix_sort l).Perm l := by
  induction l with
  | nil => exact List.Perm.refl _
  | cons x xs ih => exact (posix_insert_perm x (posix_sort xs)).trans (ih.cons x)

theorem posix_insert_sorted (x : POSIXAce) (l : List POSIXAce)
    (h : l.Pairwise POSIXAce_le) : (posix_insert x l).Pairwise POSIXAce_le := by
  induction l with
  | nil => simp [posix_insert]
  | cons y ys ih =>
    rw [posix_insert]
    split
    · rename_i hxy
      refine List.Pairwise.cons ?_ h
      intro z hz
      rcases List.mem_cons.mp hz with rfl | hz
      · exact hxy
      · exact POSIXAce_le_trans x y z hxy ((List.pairwise_cons.mp h).1 z hz)
    · rename_i hxy
      have hyx := POSIXAce_le_total x y hxy
      refine List.Pairwise.cons ?_ (ih (List.pairwise_cons.mp h).2)
      intro z hz
      have hz2 : z ∈ x :: ys := (posix_insert_perm x ys).mem_iff.mp hz
      rcases List.mem_cons.mp hz2 with rfl | hz2
      · exact hyx
      · exact (List.pairwise_cons.mp h).1 z hz2

theorem posix_sort_sorted (l : List POSIXAce) : (posix_sort l).Pairwise POSIXAce_le := by
  induction l with
  | nil => simp [posix_sort]
  | cons x xs ih => exact posix_insert_sorted x (posix_sort xs) ih

/-- Stability of the insertion: entries with any fixed `(tag, id)` key keep
their relative order. -/
theorem posix_insert_filter_key (x : POSIXAce) (l : List POSIXAce) (t : Nat) (i : Int) :
    (posix_insert x l).filter (fun a => a.tag == t && a.id == i) =
      if x.tag == t && x.id == i then
        x :: l.filter (fun a => a.tag == t && a.id == i)
      else l.filter (fun a => a.tag == t && a.id == i) := by
  induction l with
  | nil => cases hc : (x.tag == t && x.id == i) <;> simp [posix_insert, hc]
  | cons y ys ih =>
    rw [posix_insert]
    split
    · cases hc : (x.tag == t && x.id == i) <;> simp [List.filter_cons, hc]
    · rename_i hxy
      by_cases hx : (x.tag == t && x.id == i) = true
      · have hy : (y.tag == t && y.id == i) = false := by
          rcases Bool.and_eq_true _ _ |>.mp hx with ⟨hx1, hx2⟩
          have hx1' : x.tag = t := by simpa using hx1
          have hx2' : x.id = i := by simpa using hx2
          cases hc : (y.tag == t && y.id == i) with
          | false => rfl
          | true =>
            rcases Bool.and_eq_true _ _ |>.mp hc with ⟨hy1, hy2⟩
            have hy1' : y.tag = t := by simpa using hy1
            have hy2' : y.id = i := by simpa using hy2
            exfalso
            apply hxy
            unfold POSIXAce_le
            omega
        simp only [List.filter_cons, hy, hx, ih, if_true, if_pos hx]
        simp [hy]
      · have hx' : (x.tag == t && x.id == i) = false := by
          cases hc : (x.tag == t && x.id == i) with
          | false => rfl
          | true => exact absurd hc hx
        simp only [List.filter_cons, ih, if_neg hx, hx']
        split <;> simp [hx']

theorem posix_sort_filter_key (l : List POSIXAce) (t : Nat) (i : Int) :
    (posix_sort l).filter (fun a => a.tag == t && a.id == i) =
      l.filter (fun a => a.tag == t && a.id == i) := by
  induction l with
  | nil => rfl
  | cons x xs ih =>
    rw [posix_sort, posix_insert_filter_key, List.filter_cons]
    cases hc : (x.tag == t && x.id == i) <;> simp [hc, ih]

/-! ### POSIX wire round-trip lemmas -/

theorem le16_length (v : Nat) : (le16 v).length = 2 := rfl

theorem le32_length (v : Nat) : (le32 v).length = 4 := rfl

theorem encode_posix_ace_length (a : POSIXAce) : (encode_posix_ace a).length = 8 := rfl

theorem rdle16_le16_append (v : Nat) (rest : List Nat) (hv : v < 2 ^ 16) :
    rdle16 (le16 v ++ rest) = v := by
  simp only [le16, rdle16]
  simp only [List.cons_append, List.getD_cons_zero, List.getD_cons_succ]
  omega

theorem rdle32_le32_append (v : Nat) (rest : List Nat) (hv : v < 2 ^ 32) :
    rdle32 (le32 v ++ rest) = v := by
  simp only [le32, rdle32]
  simp only [List.cons_append, List.getD_cons_zero, List.getD_cons_succ]
  omega

theorem parse_posix_ace_encode (a : POSIXAce) (dflt : Bool) (rest : List Nat)
    (hw : a.wire_safe) (hd : a.default = dflt) :
    parse_posix_ace (encode_posix_ace a ++ rest) dflt = a := by
  obtain ⟨ht, hp, hid⟩ := hw
  have hdrop2 : ∀ l : List Nat, ((le16 a.tag ++ l).drop 2) = l := fun _ => rfl
  have hdrop4 : ∀ l : List Nat, ((le16 a.tag ++ (le16 a.perms ++ l)).drop 4) = l := fun _ => rfl
  simp only [parse_posix_ace, encode_posix_ace, List.append_assoc, hdrop2, hdrop4]
  by_cases hs : is_special_tag a.tag = true
  · rw [if_pos hs] at hid ⊢
    rw [rdle32_le32_append _ _ (by norm_num [POSIX_SPECIAL_ID])]
    simp only [if_pos rfl]
    cases a
    simp_all [rdle16_le16_append _ _ ht, rdle16_le16_append _ _ hp]
  · rw [Bool.not_eq_true] at hs
    rw [hs] at hid ⊢
    simp only [if_neg (Bool.false_ne_true), POSIX_SPECIAL_ID] at hid ⊢
    rcases hid with hid | ⟨hid0, hidlt⟩
    · have : u32ofInt a.id = 0xFFFFFFFF := by
        rw [hid]
        decide
      rw [rdle32_le32_append _ _ (by rw [this]; norm_num), this, if_pos rfl]
      cases a
      simp_all [rdle16_le16_append _ _ ht, rdle16_le16_append _ _ hp]
    · have hu : u32ofInt a.id = a.id.toNat := by
        unfold u32ofInt
        rw [Int.emod_eq_of_lt hid0 (by omega)]
      have hlt : a.id.toNat < 2 ^ 32 := by omega
      rw [rdle32_le32_append _ _ (by rw [hu]; exact hlt), hu]
      rw [if_neg (by omega)]
      have : ((a.id.toNat : Int)) = a.id := Int.toNat_of_nonneg hid0
      cases a
      simp_all [rdle16_le16_append _ _ ht, rdle16_le16_append _ _ hp]

theorem parse_posix_records_encode (l : List POSIXAce) (dflt : Bool)
    (h : ∀ a ∈ l, a.wire_safe ∧ a.default = dflt) :
    parse_posix_records (l.flatMap encode_posix_ace) dflt l.length = l := by
  induction l with
  | nil => rfl
  | cons a rest ih =>
    simp only [List.flatMap_cons, List.length_cons, parse_posix_records]
    rw [parse_posix_ace_encode a dflt _ (h a (by simp)).1 (h a (by simp)).2]
    rw [show (encode_posix_ace a ++ rest.flatMap encode_posix_ace).drop 8 =
          rest.flatMap encode_posix_ace by
        rw [List.drop_append_of_le_length (by rw [encode_posix_ace_length])]
        simp [encode_posix_ace_length]]
    rw [ih (fun x hx => h x (by simp [hx]))]

theorem encode_posix_aces_length (l : List POSIXAce) :
    (encode_posix_aces l).length = 4 + 8 * l.length := by
  simp only [encode_posix_aces, List.length_append, le32_length]
  have : (l.flatMap encode_posix_ace).length = 8 * l.length := by
    induction l with
    | nil => rfl
    | cons a rest ih => simp [List.flatMap_cons, encode_posix_ace_length, ih]; ring
  omega

/-- Round-trip of one encoded xattr: parsing the encoded blob returns the
encoded entries, provided each entry is wire-safe and carries the default
flag of the xattr it was encoded into. -/
theorem parse_posix_aces_encode (l : List POSIXAce) (dflt : Bool)
    (h : ∀ a ∈ l, a.wire_safe ∧ a.default = dflt) :
    parse_posix_aces (encode_posix_aces l) dflt = .ok l := by
  have hlen := encode_posix_aces_length l
  rw [parse_posix_aces, if_neg (by omega), if_neg (by omega)]
  rw [show (encode_posix_aces l).drop 4 = l.flatMap encode_posix_ace from rfl, hlen]
  rw [show (4 + 8 * l.length - 4) / 8 = l.length by omega]
  rw [parse_posix_records_encode l dflt h]

/-! ### Claim C3 (with counterexample) and claim C10 -/

/-- Input of the spec's scenario *POSIX from_aces round-trip*:
`[(OTHER, 0, -1, false), (USER_OBJ, R|W, -1, false), (GROUP_OBJ, R, -1, false)]`. -/
def c3_input : List POSIXAce :=
  [⟨POSIX_TAG_OTHER, 0, -1, false⟩, ⟨POSIX_TAG_USER_OBJ, 6, -1, false⟩,
   ⟨POSIX_TAG_GROUP_OBJ, 4, -1, false⟩]

/-- Expected canonical decode: `[USER_OBJ(R|W), GROUP_OBJ(R), OTHER(0)]`. -/
def c3_expected : List POSIXAce :=
  [⟨POSIX_TAG_USER_OBJ, 6, -1, false⟩, ⟨POSIX_TAG_GROUP_OBJ, 4, -1, false⟩,
   ⟨POSIX_TAG_OTHER, 0, -1, false⟩]

/-- C3 counterexample: a special-tag entry (`USER_OBJ`) supplied with
`id = 5` is encoded with wire id `0xFFFFFFFF` and decodes back with
`id = -1`, so decoding the encoded bytes does *not* yield the same ACEs
back: the claim's unconditional round-trip fails at this input (whose
canonical order is the input itself). -/
theorem POSIXACL_from_aces_roundtrip_counterexample :
    parse_posix_aces (POSIXACL_from_aces [⟨POSIX_TAG_USER_OBJ, 4, 5, false⟩]).1 false =
      .ok [⟨POSIX_TAG_USER_OBJ, 4, -1, false⟩] ∧
    posix_sort [⟨POSIX_TAG_USER_OBJ, 4, 5, false⟩] = [⟨POSIX_TAG_USER_OBJ, 4, 5, false⟩] ∧
    (⟨POSIX_TAG_USER_OBJ, 4, (-1 : Int), false⟩ : POSIXAce) ≠
      ⟨POSIX_TAG_USER_OBJ, 4, 5, false⟩ := by
  exact ⟨rfl, rfl, by decide⟩

/-- C3 (amended): `POSIXACL.from_aces` partitions on the default flag and
stably sorts each list by `(tag, id)` (sortedness, permutation, and
per-key order preservation proved); each blob is the LE version word `2`
followed by 8-byte records; the construction is deterministic (a pure
function of its input), and — for entries whose ids the wire can represent
(`wire_safe`: special tags carry `-1`, named ids fit `u32` below the
special marker) — decoding the encoded bytes yields exactly the sorted
entries back; the spec's concrete scenario holds as stated. -/
theorem POSIXACL_from_aces_spec :
    (∀ l : List POSIXAce,
      (posix_sort l).Pairwise POSIXAce_le ∧ (posix_sort l).Perm l ∧
      ∀ (t : Nat) (i : Int),
        (posix_sort l).filter (fun a => a.tag == t && a.id == i) =
          l.filter (fun a => a.tag == t && a.id == i)) ∧
    (∀ l : List POSIXAce,
      (encode_posix_aces l).take 4 = [2, 0, 0, 0] ∧
      (encode_posix_aces l).length = 4 + 8 * l.length) ∧
    (∀ aces : List POSIXAce, (∀ a ∈ aces, a.wire_safe) →
      parse_posix_aces (POSIXACL_from_aces aces).1 false =
        .ok (posix_sort (aces.filter (fun a => !a.default))) ∧
      (aces.filter (fun a => a.default) = [] → (POSIXACL_from_aces aces).2 = none) ∧
      (aces.filter (fun a => a.default) ≠ [] →
        (POSIXACL_from_aces aces).2 =
          some (encode_posix_aces (posix_sort (aces.filter (fun a => a.default)))) ∧
        parse_posix_aces
            (encode_posix_aces (posix_sort (aces.filter (fun a => a.default)))) true =
          .ok (posix_sort (aces.filter (fun a => a.default))))) ∧
    (parse_posix_aces (POSIXACL_from_aces c3_input).1 false = .ok c3_expected ∧
      (POSIXACL_from_aces c3_input).2 = none) := by
  refine ⟨fun l => ⟨posix_sort_sorted l, posix_sort_perm l, posix_sort_filter_key l⟩,
    fun l => ⟨rfl, encode_posix_aces_length l⟩, ?_, rfl, rfl⟩
  intro aces h
  have haccess : ∀ a ∈ posix_sort (aces.filter (fun a => !a.default)),
      a.wire_safe ∧ a.default = false := by
    intro a ha
    have ha2 := (posix_sort_perm _).mem_iff.mp ha
    have hmem := List.mem_of_mem_filter ha2
    have hflag := List.of_mem_filter ha2
    refine ⟨h a hmem, ?_⟩
    simpa using hflag
  have hdefault : ∀ a ∈ posix_sort (aces.filter (fun a => a.default)),
      a.wire_safe ∧ a.default = true := by
    intro a ha
    have ha2 := (posix_sort_perm _).mem_iff.mp ha
    have hmem := List.mem_of_mem_filter ha2
    have hflag := List.of_mem_filter ha2
    exact ⟨h a hmem, hflag⟩
  refine ⟨parse_posix_aces_encode _ false haccess, ?_, ?_⟩
  · intro hnil
    simp only [POSIXACL_from_aces, hnil]
    rfl
  · intro hnonnil
    have hlen : 0 < (posix_sort (aces.filter (fun a => a.default))).length := by
      rw [(posix_sort_perm _).length_eq]
      cases hc : aces.filter (fun a => a.default) with
      | nil => exact absurd hc hnonnil
      | cons x xs => simp [hc]
    constructor
    · simp only [POSIXACL_from_aces]
      rw [if_pos hlen]
    · exact parse_posix_aces_encode _ true hdefault

/-- Witness for C3 (amended) at a concrete input with a named entry. -/
theorem POSIXACL_from_aces_spec_witness :
    parse_posix_aces
        (POSIXACL_from_aces [⟨POSIX_TAG_USER, 6, 1000, false⟩, ⟨POSIX_TAG_USER_OBJ, 6, -1, true⟩]).1
        false =
      .ok [⟨POSIX_TAG_USER, 6, 1000, false⟩] ∧
    (POSIXACL_from_aces [⟨POSIX_TAG_USER, 6, 1000, false⟩, ⟨POSIX_TAG_USER_OBJ, 6, -1, true⟩]).2 =
      some (encode_posix_aces [⟨POSIX_TAG_USER_OBJ, 6, -1, true⟩]) := by
  have h := (POSIXACL_from_aces_spec.2.2.1
    [⟨POSIX_TAG_USER, 6, 1000, false⟩, ⟨POSIX_TAG_USER_OBJ, 6, -1, true⟩] (by decide))
  exact ⟨h.1, (h.2.2 (by decide)).1⟩

theorem rdle32_le32 (v : Nat) (hv : v < 2 ^ 32) : rdle32 (le32 v) = v := by
  simp only [le32, rdle32]
  simp only [List.getD_cons_zero, List.getD_cons_succ]
  omega

/-- C10: for a special-tag entry (`USER_OBJ`, `GROUP_OBJ`, `MASK`, `OTHER`)
the encoder writes wire id `0xFFFFFFFF` regardless of the supplied id, the
decoder maps wire id `0xFFFFFFFF` back to `id = -1`, and therefore a
caller-supplied id on a special-tag entry never survives an encode/decode
round-trip. -/
theorem encode_posix_special_id_discard :
    (∀ a : POSIXAce, is_special_tag a.tag = true →
      encode_posix_ace a = le16 a.tag ++ le16 a.perms ++ le32 POSIX_SPECIAL_ID) ∧
    (∀ (d : List Nat) (dflt : Bool), rdle32 (d.drop 4) = POSIX_SPECIAL_ID →
      (parse_posix_ace d dflt).id = -1) ∧
    (∀ (a : POSIXAce) (dflt : Bool), is_special_tag a.tag = true →
      (parse_posix_ace (encode_posix_ace a) dflt).id = -1) := by
  refine ⟨?_, ?_, ?_⟩
  · intro a h
    simp [encode_posix_ace, h]
  · intro d dflt h
    simp [parse_posix_ace, h]
  · intro a dflt h
    rw [show encode_posix_ace a = le16 a.tag ++ le16 a.perms ++ le32 POSIX_SPECIAL_ID by
        simp [encode_posix_ace, h]]
    simp only [parse_posix_ace]
    rw [show (le16 a.tag ++ le16 a.perms ++ le32 POSIX_SPECIAL_ID).drop 4 =
          le32 POSIX_SPECIAL_ID from rfl]
    rw [rdle32_le32 _ (by norm_num [POSIX_SPECIAL_ID])]
    simp

/-- Witness for C10: a `MASK` entry supplied with id `42` is written with
wire id `0xFFFFFFFF` and decodes back with id `-1`. -/
theorem encode_posix_special_id_discard_witness :
    encode_posix_ace ⟨POSIX_TAG_MASK, 7, 42, false⟩ =
      le16 POSIX_TAG_MASK ++ le16 7 ++ le32 POSIX_SPECIAL_ID ∧
    (parse_posix_ace (encode_posix_ace ⟨POSIX_TAG_MASK, 7, 42, false⟩) false).id = -1 := by
  exact ⟨encode_posix_special_id_discard.1 _ (by decide),
         encode_posix_special_id_discard.2.2 _ false (by decide)⟩

/-! ### POSIX validation (`validate_posix_blob`, `posixacl_valid`) — claim C8 -/

/-- One raw 8-byte xattr record as `validate_posix_blob` reads it:
`tag:u16`, `perm:u16`, wire id `xid:u32` (no special-id mapping). -/
structure PosixXattrRec where
  tag : Nat
  perm : Nat
  xid : Nat
deriving DecidableEq, Repr

def PosixXattrRec.bounded (r : PosixXattrRec) : Prop :=
  r.tag < 2 ^ 16 ∧ r.perm < 2 ^ 16 ∧ r.xid < 2 ^ 32

instance (r : PosixXattrRec) : Decidable r.bounded := by
  unfold PosixXattrRec.bounded
  infer_instance

/-- Write one raw record (LE). -/
def posix_rec_write (r : PosixXattrRec) : List Nat :=
  le16 r.tag ++ le16 r.perm ++ le32 r.xid

/-- Read one raw record. -/
def posix_rec_read (d : List Nat) : PosixXattrRec :=
  ⟨rdle16 d, rdle16 (d.drop 2), rdle32 (d.drop 4)⟩

/-- Read `n` consecutive raw records. -/
def posix_read_recs (d : List Nat) : Nat → List PosixXattrRec
  | 0 => []
  | n + 1 => posix_rec_read d :: posix_read_recs (d.drop 8) n

/-- A well-formed xattr blob: version word then the records. -/
def posix_blob (recs : List PosixXattrRec) : List Nat :=
  le32 POSIX_ACL_VERSION ++ recs.flatMap posix_rec_write

/-- The counting loop of `validate_posix_blob`: raise on a named entry with
the special id or on an unknown tag, otherwise count
`(USER_OBJ, GROUP_OBJ, OTHER, MASK, named)` occurrences. -/
def validate_posix_loop (label : String) :
    List PosixXattrRec → Nat → Nat → Nat → Nat → Nat →
    Except String (Nat × Nat × Nat × Nat × Nat)
  | [], uo, go, ot, mk, nm => .ok (uo, go, ot, mk, nm)
  | r :: rest, uo, go, ot, mk, nm =>
    if r.tag == POSIX_TAG_USER_OBJ then
      validate_posix_loop label rest (uo + 1) go ot mk nm
    else if r.tag == POSIX_TAG_USER then
      if r.xid == POSIX_SPECIAL_ID then
        .error (label ++ " ACL: named USER entry has no uid")
      else validate_posix_loop label rest uo go ot mk (nm + 1)
    else if r.tag == POSIX_TAG_GROUP_OBJ then
      validate_posix_loop label rest uo (go + 1) ot mk nm
    else if r.tag == POSIX_TAG_GROUP then
      if r.xid == POSIX_SPECIAL_ID then
        .error (label ++ " ACL: named GROUP entry has no gid")
      else validate_posix_loop label rest uo go ot mk (nm + 1)
    else if r.tag == POSIX_TAG_MASK then
      validate_posix_loop label rest uo go ot (mk + 1) nm
    else if r.tag == POSIX_TAG_OTHER then
      validate_posix_loop label rest uo go (ot + 1) mk nm
    else .error (label ++ " ACL: unknown tag")

/-- The final count checks of `validate_posix_blob`. -/
def validate_posix_counts (label : String) (uo go ot mk nm : Nat) : Except String Unit :=
  if uo ≠ 1 then .error (label ++ " ACL must have exactly one USER_OBJ entry")
  else if go ≠ 1 then .error (label ++ " ACL must have exactly one GROUP_OBJ entry")
  else if ot ≠ 1 then .error (label ++ " ACL must have exactly one OTHER entry")
  else if nm > 0 && mk != 1 then
    .error (label ++ " ACL must have exactly one MASK entry when named USER or GROUP entries are present")
  else if mk > 1 then .error (label ++ " ACL has more than one MASK entry")
  else .ok ()

/-- `validate_posix_blob(data, len, label)`. -/
def validate_posix_blob (d : List Nat) (label : String) : Except String Unit :=
  if d.length < 4 then .error (label ++ " ACL too short")
  else if rdle32 d ≠ POSIX_ACL_VERSION then
    .error (label ++ " ACL has unexpected version")
  else
    (validate_posix_loop label (posix_read_recs (d.drop 4) ((d.length - 4) / 8)) 0 0 0 0 0).bind
      (fun c => validate_posix_counts label c.1 c.2.1 c.2.2.1 c.2.2.2.1 c.2.2.2.2)

/-- `posixacl_valid(fd, access, default)`: validate the access blob; a
non-null default blob additionally requires a directory target and is
itself validated.  `is_dir` abstracts the `fstat`/`S_ISDIR` check. -/
def posixacl_valid (is_dir : Bool) (access : List Nat) (dflt : Option (List Nat)) :
    Except String Unit :=
  (validate_posix_blob access "access").bind (fun _ =>
    match dflt with
    | none => .ok ()
    | some dd =>
      if !is_dir then .error "default ACL is only valid on directories"
      else validate_posix_blob dd "default")

/-- What a successful run of the counting loop implies: final counters are
the initial ones plus the per-tag occurrence counts, every named entry has
a concrete wire id, and every tag is one of the six known ones. -/
theorem validate_posix_loop_ok (label : String) (recs : List PosixXattrRec)
    (uo go ot mk nm uo' go' ot' mk' nm' : Nat)
    (h : validate_posix_loop label recs uo go ot mk nm = .ok (uo', go', ot', mk', nm')) :
    uo' = uo + recs.countP (fun r => r.tag == POSIX_TAG_USER_OBJ) ∧
    go' = go + recs.countP (fun r => r.tag == POSIX_TAG_GROUP_OBJ) ∧
    ot' = ot + recs.countP (fun r => r.tag == POSIX_TAG_OTHER) ∧
    mk' = mk + recs.countP (fun r => r.tag == POSIX_TAG_MASK) ∧
    nm' = nm + recs.countP (fun r => r.tag == POSIX_TAG_USER || r.tag == POSIX_TAG_GROUP) ∧
    (∀ r ∈ recs, (r.tag = POSIX_TAG_USER ∨ r.tag = POSIX_TAG_GROUP) →
      r.xid ≠ POSIX_SPECIAL_ID) := by
  induction recs generalizing uo go ot mk nm with
  | nil =>
    simp only [validate_posix_loop, Except.ok.injEq, Prod.mk.injEq] at h
    obtain ⟨h1, h2, h3, h4, h5⟩ := h
    simp [h1, h2, h3, h4, h5]
  | cons r rest ih =>
    rw [validate_posix_loop] at h
    by_cases t : r.tag = POSIX_TAG_USER_OBJ
    · rw [if_pos (by simp [t])] at h
      obtain ⟨h1, h2, h3, h4, h5, h6⟩ := ih _ _ _ _ _ h
      have f0 : (r.tag == POSIX_TAG_USER_OBJ) = true := by rw [t]; decide
      have f1 : (r.tag == POSIX_TAG_USER) = false := by rw [t]; decide
      have f2 : (r.tag == POSIX_TAG_GROUP_OBJ) = false := by rw [t]; decide
      have f3 : (r.tag == POSIX_TAG_GROUP) = false := by rw [t]; decide
      have f4 : (r.tag == POSIX_TAG_MASK) = false := by rw [t]; decide
      have f5 : (r.tag == POSIX_TAG_OTHER) = false := by rw [t]; decide
      refine ⟨?_, ?_, ?_, ?_, ?_, ?_⟩
      · simp [List.countP_cons, f0, f1, f2, f3, f4, f5]
        omega
      · simp [List.countP_cons, f0, f1, f2, f3, f4, f5]
        omega
      · simp [List.countP_cons, f0, f1, f2, f3, f4, f5]
        omega
      · simp [List.countP_cons, f0, f1, f2, f3, f4, f5]
        omega
      · simp [List.countP_cons, f0, f1, f2, f3, f4, f5]
        omega
      · intro x hxm hc
        rcases List.mem_cons.mp hxm with rfl | hxm
        · rw [t] at hc
          rcases hc with hc | hc <;>
            simp [POSIX_TAG_USER_OBJ, POSIX_TAG_USER, POSIX_TAG_GROUP] at hc
        · exact h6 x hxm hc
    · rw [if_neg (by simp [t])] at h
      by_cases t : r.tag = POSIX_TAG_USER
      · rw [if_pos (by simp [t])] at h
        by_cases hx : (r.xid == POSIX_SPECIAL_ID) = true
        · rw [if_pos hx] at h
          simp at h
        · rw [if_neg hx] at h
          obtain ⟨h1, h2, h3, h4, h5, h6⟩ := ih _ _ _ _ _ h
          have f0 : (r.tag == POSIX_TAG_USER_OBJ) = false := by rw [t]; decide
          have f1 : (r.tag == POSIX_TAG_USER) = true := by rw [t]; decide
          have f2 : (r.tag == POSIX_TAG_GROUP_OBJ) = false := by rw [t]; decide
          have f3 : (r.tag == POSIX_TAG_GROUP) = false := by rw [t]; decide
          have f4 : (r.tag == POSIX_TAG_MASK) = false := by rw [t]; decide
          have f5 : (r.tag == POSIX_TAG_OTHER) = false := by rw [t]; decide
          refine ⟨?_, ?_, ?_, ?_, ?_, ?_⟩
          · simp [List.countP_cons, f0, f1, f2, f3, f4, f5]
            omega
          · simp [List.countP_cons, f0, f1, f2, f3, f4, f5]
            omega
          · simp [List.countP_cons, f0, f1, f2, f3, f4, f5]
            omega
          · simp [List.countP_cons, f0, f1, f2, f3, f4, f5]
            omega
          · simp [List.countP_cons, f0, f1, f2, f3, f4, f5]
            omega
          · intro x hxm hc
            rcases List.mem_cons.mp hxm with rfl | hxm
            · simpa using hx
            · exact h6 x hxm hc
      · rw [if_neg (by simp [t])] at h
        by_cases t : r.tag = POSIX_TAG_GROUP_OBJ
        · rw [if_pos (by simp [t])] at h
          obtain ⟨h1, h2, h3, h4, h5, h6⟩ := ih _ _ _ _ _ h
          have f0 : (r.tag == POSIX_TAG_USER_OBJ) = false := by rw [t]; decide
          have f1 : (r.tag == POSIX_TAG_USER) = false := by rw [t]; decide
          have f2 : (r.tag == POSIX_TAG_GROUP_OBJ) = true := by rw [t]; decide
          have f3 : (r.tag == POSIX_TAG_GROUP) = false := by rw [t]; decide
          have f4 : (r.tag == POSIX_TAG_MASK) = false := by rw [t]; decide
          have f5 : (r.tag == POSIX_TAG_OTHER) = false := by rw [t]; decide
          refine ⟨?_, ?_, ?_, ?_, ?_, ?_⟩
          · simp [List.countP_cons, f0, f1, f2, f3, f4, f5]
            omega
          · simp [List.countP_cons, f0, f1, f2, f3, f4, f5]
            omega
          · simp [List.countP_cons, f0, f1, f2, f3, f4, f5]
            omega
          · simp [List.countP_cons, f0, f1, f2, f3, f4, f5]
            omega
          · simp [List.countP_cons, f0, f1, f2, f3, f4, f5]
            omega
          · intro x hxm hc
            rcases List.mem_cons.mp hxm with rfl | hxm
            · rw [t] at hc
              rcases hc with hc | hc <;>
                simp [POSIX_TAG_GROUP_OBJ, POSIX_TAG_USER, POSIX_TAG_GROUP] at hc
            · exact h6 x hxm hc
        · rw [if_neg (by simp [t])] at h
          by_cases t : r.tag = POSIX_TAG_GROUP
          · rw [if_pos (by simp [t])] at h
            by_cases hx : (r.xid == POSIX_SPECIAL_ID) = true
            · rw [if_pos hx] at h
              simp at h
            · rw [if_neg hx] at h
              obtain ⟨h1, h2, h3, h4, h5, h6⟩ := ih _ _ _ _ _ h
              have f0 : (r.tag == POSIX_TAG_USER_OBJ) = false := by rw [t]; decide
              have f1 : (r.tag == POSIX_TAG_USER) = false := by rw [t]; decide
              have f2 : (r.tag == POSIX_TAG_GROUP_OBJ) = false := by rw [t]; decide
              have f3 : (r.tag == POSIX_TAG_GROUP) = true := by rw [t]; decide
              have f4 : (r.tag == POSIX_TAG_MASK) = false := by rw [t]; decide
              have f5 : (r.tag == POSIX_TAG_OTHER) = false := by rw [t]; decide
              refine ⟨?_, ?_, ?_, ?_, ?_, ?_⟩
              · simp [List.countP_cons, f0, f1, f2, f3, f4, f5]
                omega
              · simp [List.countP_cons, f0, f1, f2, f3, f4, f5]
                omega
              · simp [List.countP_cons, f0, f1, f2, f3, f4, f5]
                omega
              · simp [List.countP_cons, f0, f1, f2, f3, f4, f5]
                omega
              · simp [List.countP_cons, f0, f1, f2, f3, f4, f5]
                omega
              · intro x hxm hc
                rcases List.mem_cons.mp hxm with rfl | hxm
                · simpa using hx
                · exact h6 x hxm hc
          · rw [if_neg (by simp [t])] at h
            by_cases t : r.tag = POSIX_TAG_MASK
            · rw [if_pos (by simp [t])] at h
              obtain ⟨h1, h2, h3, h4, h5, h6⟩ := ih _ _ _ _ _ h
              have f0 : (r.tag == POSIX_TAG_USER_OBJ) = false := by rw [t]; decide
              have f1 : (r.tag == POSIX_TAG_USER) = false := by rw [t]; decide
              have f2 : (r.tag == POSIX_TAG_GROUP_OBJ) = false := by rw [t]; decide
              have f3 : (r.tag == POSIX_TAG_GROUP) = false := by rw [t]; decide
              have f4 : (r.tag == POSIX_TAG_MASK) = true := by rw [t]; decide
              have f5 : (r.tag == POSIX_TAG_OTHER) = false := by rw [t]; decide
              refine ⟨?_, ?_, ?_, ?_, ?_, ?_⟩
              · simp [List.countP_cons, f0, f1, f2, f3, f4, f5]
                omega
              · simp [List.countP_cons, f0, f1, f2, f3, f4, f5]
                omega
              · simp [List.countP_cons, f0, f1, f2, f3, f4, f5]
                omega
              · simp [List.countP_cons, f0, f1, f2, f3, f4, f5]
                omega
              · simp [List.countP_cons, f0, f1, f2, f3, f4, f5]
                omega
              · intro x hxm hc
                rcases List.mem_cons.mp hxm with rfl | hxm
                · rw [t] at hc
                  rcases hc with hc | hc <;>
                    simp [POSIX_TAG_MASK, POSIX_TAG_USER, POSIX_TAG_GROUP] at hc
                · exact h6 x hxm hc
            · rw [if_neg (by simp [t])] at h
              by_cases t : r.tag = POSIX_TAG_OTHER
              · rw [if_pos (by simp [t])] at h
                obtain ⟨h1, h2, h3, h4, h5, h6⟩ := ih _ _ _ _ _ h
                have f0 : (r.tag == POSIX_TAG_USER_OBJ) = false := by rw [t]; decide
                have f1 : (r.tag == POSIX_TAG_USER) = false := by rw [t]; decide
                have f2 : (r.tag == POSIX_TAG_GROUP_OBJ) = false := by rw [t]; decide
                have f3 : (r.tag == POSIX_TAG_GROUP) = false := by rw [t]; decide
                have f4 : (r.tag == POSIX_TAG_MASK) = false := by rw [t]; decide
                have f5 : (r.tag == POSIX_TAG_OTHER) = true := by rw [t]; decide
                refine ⟨?_, ?_, ?_, ?_, ?_, ?_⟩
                · simp [List.countP_cons, f0, f1, f2, f3, f4, f5]
                  omega
                · simp [List.countP_cons, f0, f1, f2, f3, f4, f5]
                  omega
                · simp [List.countP_cons, f0, f1, f2, f3, f4, f5]
                  omega
                · simp [List.countP_cons, f0, f1, f2, f3, f4, f5]
                  omega
                · simp [List.countP_cons, f0, f1, f2, f3, f4, f5]
                  omega
                · intro x hxm hc
                  rcases List.mem_cons.mp hxm with rfl | hxm
                  · rw [t] at hc
                    rcases hc with hc | hc <;>
                      simp [POSIX_TAG_OTHER, POSIX_TAG_USER, POSIX_TAG_GROUP] at hc
                  · exact h6 x hxm hc
              · rw [if_neg (by simp [t])] at h
                simp at h
theorem posix_rec_write_length (r : PosixXattrRec) : (posix_rec_write r).length = 8 := rfl

theorem posix_rec_read_write (r : PosixXattrRec) (rest : List Nat) (h : r.bounded) :
    posix_rec_read (posix_rec_write r ++ rest) = r := by
  obtain ⟨h1, h2, h3⟩ := h
  simp only [posix_rec_read, posix_rec_write, List.append_assoc]
  rw [show ∀ l : List Nat, ((le16 r.tag ++ l).drop 2) = l from fun _ => rfl]
  rw [show ∀ l : List Nat, ((le16 r.tag ++ (le16 r.perm ++ l)).drop 4) = l from fun _ => rfl]
  rw [rdle16_le16_append _ _ h1, rdle16_le16_append _ _ h2, rdle32_le32_append _ _ h3]

theorem posix_read_recs_flatMap (recs : List PosixXattrRec)
    (h : ∀ r ∈ recs, r.bounded) :
    posix_read_recs (recs.flatMap posix_rec_write) recs.length = recs := by
  induction recs with
  | nil => rfl
  | cons r rest ih =>
    simp only [List.flatMap_cons, List.length_cons, posix_read_recs]
    rw [posix_rec_read_write r _ (h r (by simp))]
    rw [show (posix_rec_write r ++ rest.flatMap posix_rec_write).drop 8 =
          rest.flatMap posix_rec_write by
        rw [List.drop_append_of_le_length (by rw [posix_rec_write_length])]
        simp [posix_rec_write_length]]
    rw [ih (fun x hx => h x (by simp [hx]))]

theorem posix_blob_length (recs : List PosixXattrRec) :
    (posix_blob recs).length = 4 + 8 * recs.length := by
  simp only [posix_blob, List.length_append, le32_length]
  have : (recs.flatMap posix_rec_write).length = 8 * recs.length := by
    induction recs with
    | nil => rfl
    | cons r rest ih => simp [List.flatMap_cons, posix_rec_write_length, ih]; ring
  omega

theorem validate_posix_counts_ok (label : String) (uo go ot mk nm : Nat)
    (h : validate_posix_counts label uo go ot mk nm = .ok ()) :
    uo = 1 ∧ go = 1 ∧ ot = 1 ∧ (0 < nm → mk = 1) ∧ mk ≤ 1 := by
  unfold validate_posix_counts at h
  by_cases h1 : uo ≠ 1
  · rw [if_pos h1] at h
    simp at h
  · rw [if_neg h1] at h
    by_cases h2 : go ≠ 1
    · rw [if_pos h2] at h
      simp at h
    · rw [if_neg h2] at h
      by_cases h3 : ot ≠ 1
      · rw [if_pos h3] at h
        simp at h
      · rw [if_neg h3] at h
        by_cases h4 : (nm > 0 && mk != 1) = true
        · rw [if_pos h4] at h
          simp at h
        · rw [if_neg h4] at h
          by_cases h5 : mk > 1
          · rw [if_pos h5] at h
            simp at h
          · simp only [Bool.and_eq_true, bne_iff_ne, decide_eq_true_eq, not_and, not_not] at h4
            refine ⟨by omega, by omega, by omega, ?_, by omega⟩
            intro hnm
            exact h4 (by simpa using hnm)

/-! ### Claim C8 -/

/-- C8: a POSIX xattr blob is accepted only if it has exactly one
`USER_OBJ`, one `GROUP_OBJ` and one `OTHER` entry, every named
`USER`/`GROUP` entry carries a concrete wire id (not the special marker),
exactly one `MASK` is present whenever a named entry is present, and never
more than one `MASK`; and `posixacl_valid` accepts a non-null default
blob only when the target is a directory (both blobs then being
individually accepted). -/
theorem posixacl_valid_spec :
    (∀ (label : String) (recs : List PosixXattrRec), (∀ r ∈ recs, r.bounded) →
      validate_posix_blob (posix_blob recs) label = .ok () →
        recs.countP (fun r => r.tag == POSIX_TAG_USER_OBJ) = 1 ∧
        recs.countP (fun r => r.tag == POSIX_TAG_GROUP_OBJ) = 1 ∧
        recs.countP (fun r => r.tag == POSIX_TAG_OTHER) = 1 ∧
        (∀ r ∈ recs, (r.tag = POSIX_TAG_USER ∨ r.tag = POSIX_TAG_GROUP) →
          r.xid ≠ POSIX_SPECIAL_ID) ∧
        (0 < recs.countP (fun r => r.tag == POSIX_TAG_USER || r.tag == POSIX_TAG_GROUP) →
          recs.countP (fun r => r.tag == POSIX_TAG_MASK) = 1) ∧
        recs.countP (fun r => r.tag == POSIX_TAG_MASK) ≤ 1) ∧
    (∀ (is_dir : Bool) (access dd : List Nat),
      posixacl_valid is_dir access (some dd) = .ok () → is_dir = true) ∧
    (∀ (is_dir : Bool) (access : List Nat) (dflt : Option (List Nat)),
      posixacl_valid is_dir access dflt = .ok () →
        validate_posix_blob access "access" = .ok () ∧
        (∀ dd, dflt = some dd → validate_posix_blob dd "default" = .ok ())) := by
  refine ⟨?_, ?_, ?_⟩
  · intro label recs hb h
    have hlen := posix_blob_length recs
    rw [validate_posix_blob, if_neg (by omega),
        if_neg (by
          rw [show rdle32 (posix_blob recs) =
                rdle32 (le32 POSIX_ACL_VERSION ++ recs.flatMap posix_rec_write) from rfl,
              rdle32_le32_append _ _ (by norm_num [POSIX_ACL_VERSION])]
          simp)] at h
    rw [show (posix_blob recs).drop 4 = recs.flatMap posix_rec_write from rfl, hlen,
        show (4 + 8 * recs.length - 4) / 8 = recs.length by omega,
        posix_read_recs_flatMap recs hb] at h
    cases hloop : validate_posix_loop label recs 0 0 0 0 0 with
    | error e =>
      rw [hloop] at h
      simp [Except.bind] at h
    | ok c =>
      rw [hloop] at h
      simp only [Except.bind] at h
      obtain ⟨c1, c2, c3, c4, c5⟩ := c
      obtain ⟨e1, e2, e3, e4, e5, e6⟩ :=
        validate_posix_loop_ok label recs 0 0 0 0 0 _ _ _ _ _ hloop
      obtain ⟨k1, k2, k3, k4, k5⟩ := validate_posix_counts_ok label c1 c2 c3 c4 c5 h
      refine ⟨by omega, by omega, by omega, e6, by omega, by omega⟩
  · intro is_dir access dd h
    rw [posixacl_valid.eq_def] at h
    cases hv : validate_posix_blob access "access" with
    | error e =>
      rw [hv] at h
      simp [Except.bind] at h
    | ok u =>
      rw [hv] at h
      simp only [Except.bind] at h
      cases is_dir with
      | true => rfl
      | false => simp at h
  · intro is_dir access dflt h
    rw [posixacl_valid.eq_def] at h
    cases hv : validate_posix_blob access "access" with
    | error e =>
      rw [hv] at h
      simp [Except.bind] at h
    | ok u =>
      rw [hv] at h
      simp only [Except.bind] at h
      cases u
      refine ⟨rfl, ?_⟩
      intro dd hdd
      subst hdd
      cases is_dir with
      | true => simpa using h
      | false => simp at h

/-- Witness for C8 at the minimal valid access blob
`[USER_OBJ, GROUP_OBJ, OTHER]` on a directory target. -/
theorem posixacl_valid_spec_witness :
    ([⟨POSIX_TAG_USER_OBJ, 7, 0xFFFFFFFF⟩, ⟨POSIX_TAG_GROUP_OBJ, 7, 0xFFFFFFFF⟩,
      ⟨POSIX_TAG_OTHER, 7, 0xFFFFFFFF⟩] : List PosixXattrRec).countP
        (fun r => r.tag == POSIX_TAG_USER_OBJ) = 1 ∧
    (true : Bool) = true := by
  refine ⟨?_, ?_⟩
  · exact (posixacl_valid_spec.1 "access"
      [⟨POSIX_TAG_USER_OBJ, 7, 0xFFFFFFFF⟩, ⟨POSIX_TAG_GROUP_OBJ, 7, 0xFFFFFFFF⟩,
       ⟨POSIX_TAG_OTHER, 7, 0xFFFFFFFF⟩] (by decide) (by rfl)).1
  · exact posixacl_valid_spec.2.1 true
      (posix_blob [⟨POSIX_TAG_USER_OBJ, 7, 0xFFFFFFFF⟩, ⟨POSIX_TAG_GROUP_OBJ, 7, 0xFFFFFFFF⟩,
        ⟨POSIX_TAG_OTHER, 7, 0xFFFFFFFF⟩])
      (posix_blob [⟨POSIX_TAG_USER_OBJ, 7, 0xFFFFFFFF⟩, ⟨POSIX_TAG_GROUP_OBJ, 7, 0xFFFFFFFF⟩,
        ⟨POSIX_TAG_OTHER, 7, 0xFFFFFFFF⟩])
      (by rfl)

/-! ## Unified ACL read — `do_fgetacl` (claim C6)

The xattr probes (`fgetxattr(fd, name, NULL, 0)`) are abstracted to an
environment of outcomes; a probe yields either a size (`.ok`) or an errno.
The follow-up full-size read (`read_xattr_raw`) is abstracted to the bytes
it would return. -/

inductive XattrErr
  | eNODATA
  | eOPNOTSUPP
  | eOther (code : Nat)
deriving DecidableEq, Repr

/-- Probe and read outcomes for the three ACL xattrs on one fd. -/
structure FgetEnv where
  nfs4_probe : Except XattrErr Nat
  nfs4_data : List Nat
  access_probe : Except XattrErr Nat
  access_data : List Nat
  default_probe : Except XattrErr Nat
  default_data : List Nat

/-- `acl_xattr_t`: the type-tagged result of `do_fgetacl`.  `none` models a
NULL buffer (absent/empty xattr). -/
inductive AclXattr
  | nfs4 (data : Option (List Nat))
  | posix (access : Option (List Nat)) (dflt : Option (List Nat))
deriving DecidableEq, Repr

/-- The default-xattr probe at the end of the POSIX path: `ENODATA` means
no default ACL, any other error is surfaced, a positive size is read. -/
def do_fgetacl_posix_tail (env : FgetEnv) (access : Option (List Nat)) :
    Except XattrErr AclXattr :=
  match env.default_probe with
  | .ok dsz => .ok (.posix access (if 0 < dsz then some env.default_data else none))
  | .error .eNODATA => .ok (.posix access none)
  | .error .eOPNOTSUPP => .error .eOPNOTSUPP
  | .error (.eOther c) => .error (.eOther c)

/-- `do_fgetacl(fd, out)`: probe the NFS4 xattr first — a size or `ENODATA`
classifies the fd as NFS4 (`ENODATA` meaning present-but-empty),
`EOPNOTSUPP` falls through to the POSIX pair, any other error is surfaced.
On the POSIX path an `EOPNOTSUPP` on the access probe is surfaced (ACLs
disabled); any other failed access probe leaves the access component
absent. -/
def do_fgetacl (env : FgetEnv) : Except XattrErr AclXattr :=
  match env.nfs4_probe with
  | .ok sz => .ok (.nfs4 (if 0 < sz then some env.nfs4_data else none))
  | .error .eNODATA => .ok (.nfs4 none)
  | .error (.eOther c) => .error (.eOther c)
  | .error .eOPNOTSUPP =>
    match env.access_probe with
    | .error .eOPNOTSUPP => .error .eOPNOTSUPP
    | ap =>
      do_fgetacl_posix_tail env (match ap with
        | .ok sz => if 0 < sz then some env.access_data else none
        | .error _ => none)

/-! ### Claim C6 -/

/-- C6: the NFS4 probe classifies — a size yields the NFS4 variant (empty
for size 0), `ENODATA` yields the NFS4 variant present-but-empty,
`EOPNOTSUPP` falls through to the POSIX pair, and any other probe error is
surfaced; on the POSIX path an access probe that also returns `EOPNOTSUPP`
surfaces the error, `ENODATA` on either POSIX xattr yields an absent
component, and the result is the tagged NFS4 or POSIX variant. -/
theorem do_fgetacl_spec :
    (∀ (env : FgetEnv) (sz : Nat), env.nfs4_probe = .ok sz →
      do_fgetacl env = .ok (.nfs4 (if 0 < sz then some env.nfs4_data else none))) ∧
    (∀ env : FgetEnv, env.nfs4_probe = .error .eNODATA →
      do_fgetacl env = .ok (.nfs4 none)) ∧
    (∀ (env : FgetEnv) (c : Nat), env.nfs4_probe = .error (.eOther c) →
      do_fgetacl env = .error (.eOther c)) ∧
    (∀ env : FgetEnv, env.nfs4_probe = .error .eOPNOTSUPP →
      env.access_probe = .error .eOPNOTSUPP →
      do_fgetacl env = .error .eOPNOTSUPP) ∧
    (∀ env : FgetEnv, env.nfs4_probe = .error .eOPNOTSUPP →
      env.access_probe = .error .eNODATA → env.default_probe = .error .eNODATA →
      do_fgetacl env = .ok (.posix none none)) ∧
    (∀ (env : FgetEnv) (sz : Nat), env.nfs4_probe = .error .eOPNOTSUPP →
      env.access_probe = .ok sz → env.default_probe = .error .eNODATA →
      do_fgetacl env = .ok (.posix (if 0 < sz then some env.access_data else none) none)) ∧
    (∀ (env : FgetEnv) (sz dsz : Nat), env.nfs4_probe = .error .eOPNOTSUPP →
      env.access_probe = .ok sz → env.default_probe = .ok dsz →
      do_fgetacl env = .ok (.posix (if 0 < sz then some env.access_data else none)
        (if 0 < dsz then some env.default_data else none))) := by
  refine ⟨?_, ?_, ?_, ?_, ?_, ?_, ?_⟩
  · intro env sz h
    simp [do_fgetacl, h]
  · intro env h
    simp [do_fgetacl, h]
  · intro env c h
    simp [do_fgetacl, h]
  · intro env h1 h2
    simp [do_fgetacl, h1, h2]
  · intro env h1 h2 h3
    simp [do_fgetacl, do_fgetacl_posix_tail, h1, h2, h3]
  · intro env sz h1 h2 h3
    simp [do_fgetacl, do_fgetacl_posix_tail, h1, h2, h3]
  · intro env sz dsz h1 h2 h3
    simp [do_fgetacl, do_fgetacl_posix_tail, h1, h2, h3]

/-- Witness for C6: an fd where the NFS4 probe returns `EOPNOTSUPP`, the
access probe returns a 12-byte size and the default probe `ENODATA`. -/
theorem do_fgetacl_spec_witness :
    do_fgetacl ⟨.error .eOPNOTSUPP, [], .ok 12, [2, 0, 0, 0], .error .eNODATA, []⟩ =
      .ok (.posix (some [2, 0, 0, 0]) none) := by
  have h := do_fgetacl_spec.2.2.2.2.2.1
    ⟨.error .eOPNOTSUPP, [], .ok 12, [2, 0, 0, 0], .error .eNODATA, []⟩ 12 rfl rfl rfl
  simpa using h

/-! ## File handles — `py_fhandle_open` (claim C9) -/

def UINT64_MAX : Nat := 2 ^ 64 - 1
def STATX_MNT_ID : Nat := 0x00001000
def STATX_MNT_ID_UNIQUE : Nat := 0x00004000

/-- `py_fhandle_t`: the persisted mount id (64-bit; `UINT64_MAX` is the
uninitialized sentinel) and the flag saying whether it is the unique
64-bit id.  The opaque handle bytes are irrelevant here. -/
structure Fhandle where
  mount_id : Nat
  unique_mount_id : Bool
deriving DecidableEq, Repr

/-- Kernel-side outcomes for one `open` call: the `statx` on the supplied
mount fd (per requested mask, yielding `stx_mnt_id` or an errno) and the
`open_by_handle_at` outcome (fd or errno). -/
structure FhandleOpenEnv where
  statx_result : Nat → Except Nat Nat
  open_result : Except Nat Nat

inductive FhandleOpenErr
  | invalidHandle
  | osError (errno : Nat)
  | mountMismatch
deriving DecidableEq, Repr

/-- `py_fhandle_open(mount_fd, flags)`: reject an uninitialized handle;
`statx` the mount fd with `STATX_MNT_ID_UNIQUE` or the legacy
`STATX_MNT_ID` mask according to how the handle was created; a
`stx_mnt_id` different from the recorded mount id is a `ValueError`
(`mountMismatch`); only then call `open_by_handle_at`.  The second
component records whether `open_by_handle_at` was invoked. -/
def py_fhandle_open (h : Fhandle) (env : FhandleOpenEnv) :
    Except FhandleOpenErr Nat × Bool :=
  if h.mount_id = UINT64_MAX then (.error .invalidHandle, false)
  else
    match env.statx_result (if h.unique_mount_id then STATX_MNT_ID_UNIQUE else STATX_MNT_ID) with
    | .error e => (.error (.osError e), false)
    | .ok mnt_id =>
      if mnt_id ≠ h.mount_id then (.error .mountMismatch, false)
      else
        match env.open_result with
        | .error e => (.error (.osError e), true)
        | .ok fd => (.ok fd, true)

/-! ### Claim C9 -/

/-- C9: for every (initialized) file handle, `open(mount_fd)` statx-es the
mount fd with the unique or legacy mount-id mask according to how the
handle was created, and when the resulting `stx_mnt_id` differs from the
handle's recorded mount id it fails with a domain error without ever
invoking `open_by_handle_at` (second component `false`), whatever the
kernel would have answered to that call. -/
theorem py_fhandle_open_spec (h : Fhandle) (env : FhandleOpenEnv) (m : Nat)
    (hvalid : h.mount_id ≠ UINT64_MAX)
    (hstx : env.statx_result
      (if h.unique_mount_id then STATX_MNT_ID_UNIQUE else STATX_MNT_ID) = .ok m)
    (hne : m ≠ h.mount_id) :
    py_fhandle_open h env = (.error .mountMismatch, false) := by
  simp [py_fhandle_open, hvalid, hstx, hne]

/-- Witness for C9: a legacy-id handle recording mount id 7, a mount fd
whose `stx_mnt_id` is 9, and an `open_by_handle_at` that would have
succeeded with fd 5 — the call fails with the mismatch error and the
kernel open is never used. -/
theorem py_fhandle_open_spec_witness :
    py_fhandle_open ⟨7, false⟩ ⟨fun _ => .ok 9, .ok 5⟩ =
      (.error .mountMismatch, false) := by
  exact py_fhandle_open_spec ⟨7, false⟩ ⟨fun _ => .ok 9, .ok 5⟩ 9
    (by decide) rfl (by decide)

/-! ## Filesystem iterator (`fsiter.c`) — claims C4 and C5

The kernel side is abstracted to a tree of named nodes: a directory frame
holds the entries its `DIR` stream has not yet produced (readdir order is
whatever the list says).  A `link` node stands for any child whose
`openat2(..., RESOLVE_NO_XDEV | RESOLVE_NO_SYMLINKS)` fails with `ELOOP`
or `EXDEV` (symlink or foreign mount) and is pruned. -/

inductive FsNode
  | file (ino : Nat) (size : Nat) (btime : Int)
  | dir (ino : Nat) (entries : List (String × FsNode))
  | link

/-- The `d_ino` the directory stream reports for a node (0 for pruned
nodes, never inspected for them). -/
def FsNode.ino : FsNode → Nat
  | .file i _ _ => i
  | .dir i _ => i
  | .link => 0

/-- `MAX_DEPTH` from `fsiter.h`. -/
def FS_MAX_DEPTH : Nat := 2048

/-- `iter_dir_t`: one directory-stack frame — absolute path, the not yet
consumed directory entries, and the directory's inode number. -/
structure IterDir where
  path : String
  remaining : List (String × FsNode)
  ino : Nat

/-- One yielded `IterInstance` (fd omitted; `size` is `stx_size` for files
and 0 for directories). -/
structure IterEntry where
  parent : String
  name : String
  ino : Nat
  size : Nat
  is_dir : Bool
deriving DecidableEq, Repr

/-- `FilesystemIteratorObject`: stack (top first; `cur_depth` is its
length), restore cookies (`none` models a NULL cookie array), the
restoring flag, counters and the btime cutoff. -/
structure FsIterState where
  stack : List IterDir
  cookies : Option (List Nat)
  restoring : Bool
  cnt : Nat
  cnt_bytes : Nat
  btime_cutoff : Int

inductive IterError
  | restoreFailure (depth : Nat) (path : String)
  | maxDepthExceeded (path : String)
deriving DecidableEq, Repr

/-- Outcome of one iteration of the `while` loop in
`FilesystemIterator_next`: loop again with a new state, yield an entry
(returning from `next`), finish (`StopIteration`), or raise. -/
inductive IterStepResult
  | next (s : FsIterState)
  | yield (e : IterEntry) (s : FsIterState)
  | done
  | fail (e : IterError)

/-- The unsatisfied restore cookie for the current depth, if any:
`cookies` non-null, `cur_depth < cookie_sz`, and a non-zero entry. -/
def pendingCookie (s : FsIterState) : Option Nat :=
  match s.cookies with
  | none => none
  | some cs =>
    if s.stack.length < cs.length ∧ cs.getD s.stack.length 0 ≠ 0 then
      some (cs.getD s.stack.length 0)
    else none

/-- Zero the cookie for the current depth (`self->cookies[cur_depth] = 0`). -/
def clearCookie (s : FsIterState) : FsIterState :=
  { s with cookies := s.cookies.map (fun cs => cs.set s.stack.length 0) }

/-- One iteration of the iterator loop (`FilesystemIterator_next` body):
read one entry from the top stream (exhaustion pops, or raises the
restore failure if a cookie for this depth is unsatisfied), skip `.` and
`..`, skip entries not matching a pending cookie (clearing it on match),
prune `ELOOP`/`EXDEV` children, apply the btime filter to non-directories,
yield files, and push directories — yielding them unless a restoration is
in progress, which instead clears once `cur_depth` reaches the cookie
count.  The depth cap check of `push_dir_stack` raises before pushing a
frame beyond `MAX_DEPTH`. -/
def iterStep (s : FsIterState) : IterStepResult :=
  match s.stack with
  | [] => .done
  | top :: rest =>
    match top.remaining with
    | [] =>
      match pendingCookie s with
      | some _ => .fail (.restoreFailure s.stack.length top.path)
      | none => .next { s with stack := rest }
    | (name, node) :: more =>
      let s1 := { s with stack := { top with remaining := more } :: rest }
      if name = "." ∨ name = ".." then .next s1
      else
        let cont : FsIterState → IterStepResult := fun s2 =>
          match node with
          | .link => .next s2
          | .file ino size btime =>
            if s.btime_cutoff ≠ 0 ∧ btime > s.btime_cutoff then .next s2
            else .yield ⟨top.path, name, ino, size, false⟩
              { s2 with cnt := s2.cnt + 1, cnt_bytes := s2.cnt_bytes + size }
          | .dir ino entries =>
            let full_path := top.path ++ "/" ++ name
            if FS_MAX_DEPTH ≤ s2.stack.length then .fail (.maxDepthExceeded full_path)
            else
              let pushed := { s2 with stack := ⟨full_path, entries, ino⟩ :: s2.stack }
              if s.restoring then
                .next (if (s.cookies.map List.length).getD 0 ≤ pushed.stack.length then
                  { pushed with restoring := false, cookies := none }
                else pushed)
              else .yield ⟨top.path, name, ino, 0, true⟩ { pushed with cnt := pushed.cnt + 1 }
        match pendingCookie s with
        | some c =>
          if node.ino ≠ c then .next s1
          else cont (clearCookie s1)
        | none => cont s1

/-- `dir_stack_to_cookies`: one inode cookie per snapshot entry; an empty
snapshot yields no cookie array. -/
def dir_stack_to_cookies (ds : Option (List (String × Nat))) : Option (List Nat) :=
  match ds with
  | none => none
  | some [] => none
  | some l => some (l.map Prod.snd)

/-- Iterator construction (`create_filesystem_iterator`) after the root
open/statx succeeded: root frame pushed, cookies extracted from the
snapshot, restore mode exactly when a cookie array exists. -/
def create_filesystem_iterator (rootPath : String) (rootIno : Nat)
    (rootEntries : List (String × FsNode)) (btime_cutoff : Int)
    (ds : Option (List (String × Nat))) : FsIterState :=
  let cookies := dir_stack_to_cookies ds
  { stack := [⟨rootPath, rootEntries, rootIno⟩]
    cookies := cookies
    restoring := cookies.isSome
    cnt := 0
    cnt_bytes := 0
    btime_cutoff := btime_cutoff }

/-! ### Claim C4 -/

/-- C4: an iterator constructed with a `dir_stack` snapshot records one
inode cookie per snapshot entry and starts in restore mode (no snapshot:
no cookies, no restore mode); while the cookie for the current depth is
non-zero, entries whose inode differs are skipped (state otherwise
untouched); on a match the cookie is cleared and the directory is entered
*without being yielded*, restore mode clearing exactly when the new depth
reaches the number of cookies; and exhausting a directory while the
cookie for its depth is unsatisfied raises the iterator-restore-failure
error carrying that depth and the directory's path. -/
theorem FilesystemIterator_restore_spec :
    (∀ (rootPath : String) (rootIno : Nat) (rootEntries : List (String × FsNode))
        (bc : Int) (e : String × Nat) (l : List (String × Nat)),
      (create_filesystem_iterator rootPath rootIno rootEntries bc (some (e :: l))).cookies =
          some ((e :: l).map Prod.snd) ∧
      (create_filesystem_iterator rootPath rootIno rootEntries bc (some (e :: l))).restoring = true ∧
      (create_filesystem_iterator rootPath rootIno rootEntries bc none).cookies = none ∧
      (create_filesystem_iterator rootPath rootIno rootEntries bc none).restoring = false) ∧
    (∀ (p : String) (i : Nat) (name : String) (node : FsNode)
        (more : List (String × FsNode)) (rest : List IterDir) (cs : List Nat)
        (r : Bool) (cnt cb : Nat) (bc : Int),
      name ≠ "." → name ≠ ".." →
      rest.length + 1 < cs.length → cs.getD (rest.length + 1) 0 ≠ 0 →
      node.ino ≠ cs.getD (rest.length + 1) 0 →
      iterStep ⟨⟨p, (name, node) :: more, i⟩ :: rest, some cs, r, cnt, cb, bc⟩ =
        .next ⟨⟨p, more, i⟩ :: rest, some cs, r, cnt, cb, bc⟩) ∧
    (∀ (p : String) (i ino : Nat) (name : String) (entries more : List (String × FsNode))
        (rest : List IterDir) (cs : List Nat) (cnt cb : Nat) (bc : Int),
      name ≠ "." → name ≠ ".." →
      rest.length + 1 < cs.length → cs.getD (rest.length + 1) 0 ≠ 0 →
      ino = cs.getD (rest.length + 1) 0 →
      rest.length + 1 < FS_MAX_DEPTH →
      iterStep ⟨⟨p, (name, .dir ino entries) :: more, i⟩ :: rest, some cs, true, cnt, cb, bc⟩ =
        .next (if cs.length = rest.length + 2 then
          ⟨⟨p ++ "/" ++ name, entries, ino⟩ :: ⟨p, more, i⟩ :: rest, none, false, cnt, cb, bc⟩
        else
          ⟨⟨p ++ "/" ++ name, entries, ino⟩ :: ⟨p, more, i⟩ :: rest,
            some (cs.set (rest.length + 1) 0), true, cnt, cb, bc⟩)) ∧
    (∀ (p : String) (i : Nat) (rest : List IterDir) (cs : List Nat)
        (r : Bool) (cnt cb : Nat) (bc : Int),
      rest.length + 1 < cs.length → cs.getD (rest.length + 1) 0 ≠ 0 →
      iterStep ⟨⟨p, [], i⟩ :: rest, some cs, r, cnt, cb, bc⟩ =
        .fail (.restoreFailure (rest.length + 1) p)) := by
  refine ⟨?_, ?_, ?_, ?_⟩
  · intro rootPath rootIno rootEntries bc e l
    exact ⟨rfl, rfl, rfl, rfl⟩
  · intro p i name node more rest cs r cnt cb bc hn1 hn2 hlen hnz hino
    have hpend : pendingCookie ⟨⟨p, (name, node) :: more, i⟩ :: rest, some cs, r, cnt, cb, bc⟩ =
        some (cs.getD (rest.length + 1) 0) := by
      simp [pendingCookie]
      exact ⟨by simpa using hlen, by simpa using hnz⟩
    have hino2 : ¬ node.ino = cs[rest.length + 1]?.getD 0 := by simpa using hino
    simp only [iterStep, hpend]
    simp [hn1, hn2, hino2]
  · intro p i ino name entries more rest cs cnt cb bc hn1 hn2 hlen hnz hino hdep
    have hpend : pendingCookie ⟨⟨p, (name, .dir ino entries) :: more, i⟩ :: rest, some cs, true,
          cnt, cb, bc⟩ = some (cs.getD (rest.length + 1) 0) := by
      simp [pendingCookie]
      exact ⟨by simpa using hlen, by simpa using hnz⟩
    have hdc : ¬ (FS_MAX_DEPTH ≤ rest.length + 1) := by
      unfold FS_MAX_DEPTH at *
      omega
    have hino2 : ino = cs[rest.length + 1]?.getD 0 := by simpa using hino
    simp only [iterStep, hpend]
    by_cases hend : cs.length = rest.length + 2
    · have hle : cs.length ≤ rest.length + 2 := by omega
      simp [hn1, hn2, hino2, clearCookie, FsNode.ino, hdc, hend, hle]
    · have hle : ¬ (cs.length ≤ rest.length + 2) := by omega
      simp [hn1, hn2, hino2, clearCookie, FsNode.ino, hdc, hend, hle]
  · intro p i rest cs r cnt cb bc hlen hnz
    have hpend : pendingCookie ⟨⟨p, [], i⟩ :: rest, some cs, r, cnt, cb, bc⟩ =
        some (cs.getD (rest.length + 1) 0) := by
      simp [pendingCookie]
      exact ⟨by simpa using hlen, by simpa using hnz⟩
    simp only [iterStep, hpend]
    simp

/-- Witness for C4: restoring with cookies `[5, 7]` at depth 1, the entry
`"a"` with inode 7 matches the pending cookie — the directory is entered
without being yielded, the cookie array is released and restore mode
clears (depth 2 = number of cookies); and an exhausted directory with the
cookie still unsatisfied raises the restore failure with depth 1 and the
directory path. -/
theorem FilesystemIterator_restore_spec_witness :
    iterStep ⟨[⟨"/mnt/t", [("a", .dir 7 [])], 5⟩], some [5, 7], true, 0, 0, 0⟩ =
      .next ⟨[⟨"/mnt/t" ++ "/" ++ "a", [], 7⟩, ⟨"/mnt/t", [], 5⟩], none, false, 0, 0, 0⟩ ∧
    iterStep ⟨[⟨"/mnt/t", [], 5⟩], some [5, 7], true, 0, 0, 0⟩ =
      .fail (.restoreFailure 1 "/mnt/t") := by
  constructor
  · have h := FilesystemIterator_restore_spec.2.2.1 "/mnt/t" 5 7 "a" [] [] [] [5, 7] 0 0 0
      (by decide) (by decide) (by decide) (by decide) (by decide) (by decide)
    simpa using h
  · exact FilesystemIterator_restore_spec.2.2.2 "/mnt/t" 5 [] [5, 7] true 0 0 0
      (by decide) (by decide)

/-! ### Claim C5 -/

/-- C5: the directory stack is capped at `MAX_DEPTH = 2048` frames.
Pushing a child directory while the stack already holds 2048 frames (the
would-be 2049th frame) fails with a domain error whose message names the
full path of the directory that could not be entered; with fewer than
2048 frames the push succeeds and the resulting stack still holds at most
2048 frames — so a chain using exactly 2048 frames traverses
successfully. -/
theorem push_dir_stack_depth_limit :
    (∀ (p : String) (i ino : Nat) (name : String) (entries more : List (String × FsNode))
        (rest : List IterDir) (cnt cb : Nat) (bc : Int),
      name ≠ "." → name ≠ ".." →
      FS_MAX_DEPTH ≤ rest.length + 1 →
      iterStep ⟨⟨p, (name, .dir ino entries) :: more, i⟩ :: rest, none, false, cnt, cb, bc⟩ =
        .fail (.maxDepthExceeded (p ++ "/" ++ name))) ∧
    (∀ (p : String) (i ino : Nat) (name : String) (entries more : List (String × FsNode))
        (rest : List IterDir) (cnt cb : Nat) (bc : Int),
      name ≠ "." → name ≠ ".." →
      rest.length + 1 < FS_MAX_DEPTH →
      iterStep ⟨⟨p, (name, .dir ino entries) :: more, i⟩ :: rest, none, false, cnt, cb, bc⟩ =
        .yield ⟨p, name, ino, 0, true⟩
          ⟨⟨p ++ "/" ++ name, entries, ino⟩ :: ⟨p, more, i⟩ :: rest, none, false,
            cnt + 1, cb, bc⟩ ∧
      (⟨p ++ "/" ++ name, entries, ino⟩ :: ⟨p, more, i⟩ :: rest : List IterDir).length ≤
        FS_MAX_DEPTH) := by
  constructor
  · intro p i ino name entries more rest cnt cb bc hn1 hn2 hdep
    have hd2 : FS_MAX_DEPTH ≤ (rest.length + 1) := hdep
    simp only [iterStep]
    simp [pendingCookie, hn1, hn2, hd2]
  · intro p i ino name entries more rest cnt cb bc hn1 hn2 hdep
    have hd2 : ¬ FS_MAX_DEPTH ≤ (rest.length + 1) := by omega
    constructor
    · simp only [iterStep]
      simp [pendingCookie, hn1, hn2, hd2]
    · simp only [List.length_cons]
      unfold FS_MAX_DEPTH at *
      omega

/-- Witness for C5: with 2048 frames already on the stack the next
directory push fails naming the path; with a single frame it succeeds. -/
theorem push_dir_stack_depth_limit_witness :
    iterStep ⟨⟨"/r", [("d", .dir 1 [])], 9⟩ :: List.replicate 2047 ⟨"", [], 0⟩,
        none, false, 0, 0, 0⟩ =
      .fail (.maxDepthExceeded ("/r" ++ "/" ++ "d")) ∧
    iterStep ⟨[⟨"/r", [("d", .dir 1 [])], 9⟩], none, false, 0, 0, 0⟩ =
      .yield ⟨"/r", "d", 1, 0, true⟩
        ⟨[⟨"/r" ++ "/" ++ "d", [], 1⟩, ⟨"/r", [], 9⟩], none, false, 1, 0, 0⟩ := by
  constructor
  · exact push_dir_stack_depth_limit.1 "/r" 9 1 "d" [] [] (List.replicate 2047 ⟨"", [], 0⟩)
      0 0 0 (by decide) (by decide)
      (by rw [List.length_replicate]; decide)
  · exact (push_dir_stack_depth_limit.2 "/r" 9 1 "d" [] [] [] 0 0 0
      (by decide) (by decide) (by decide)).1
